import Mathlib

/-!
Verification of the inference-engine execution core of
`src/LivePortrait/commons/utils/tensorrt_driver.py` (classes `Binding` and
`TensorRTEngine`).  The Python code is shallowly embedded: numpy arrays become
`NDArray`, bindings with their lazily created page-locked/device buffers become
`Binding` values over an allocation counter, the engine manager becomes an
association list of per-model states, and the asynchronous device execution
(`execute_async_v3` + `stream.synchronize`) becomes an oracle parameter.  All
device traffic (host-to-device copies, execution submission, device-to-host
copies) is recorded in an explicit trace.
-/

namespace TRTDriver

/-- Decidable equality for `Except` results, used to evaluate the embedded
operations on concrete inputs. -/
instance instDecEqExcept {ε α : Type} [DecidableEq ε] [DecidableEq α] :
    DecidableEq (Except ε α) := fun x y =>
  match x, y with
  | .ok a, .ok b =>
    if h : a = b then .isTrue (by rw [h]) else .isFalse (by simp [h])
  | .error a, .error b =>
    if h : a = b then .isTrue (by rw [h]) else .isFalse (by simp [h])
  | .ok _, .error _ => .isFalse (by simp)
  | .error _, .ok _ => .isFalse (by simp)

/-- Element types of the driver's dtype map (`Binding.__init__`, tensorrt_driver.py
lines 18-27; both optional entries INT32 and INT64 are taken as present). -/
inductive DType
  | float32
  | float16
  | int8
  | boolT
  | int32
  | int64
deriving DecidableEq

/-- Bytes per element of each dtype (numpy itemsize). -/
def DType.itemsize : DType → Nat
  | .float32 => 4
  | .float16 => 2
  | .int8 => 1
  | .boolT => 1
  | .int32 => 4
  | .int64 => 8

/-- Number of elements of a shape (product of the extents; a 0-d scalar has 1). -/
def volume (shape : List Nat) : Nat := shape.foldr (fun a b => a * b) 1

/-- Model of a numpy ndarray: dtype, shape, the stored element values (integers as
an abstract carrier for the stored bits), the raw data address (`ctypes.data`) and
a contiguity flag. -/
structure NDArray where
  dtype : DType
  shape : List Nat
  data : List Int
  addr : Nat
  contiguous : Bool
deriving DecidableEq

/-- Two's-complement wrap of an integer into the signed 32-bit range, as performed
by numpy's `astype(np.int32)` on int64 data. -/
def wrap32 (v : Int) : Int := (v + 2 ^ 31) % 2 ^ 32 - 2 ^ 31

/-- numpy `astype(np.int32)` applied to an int64 array: every value wraps. -/
def NDArray.astypeInt32 (a : NDArray) : NDArray :=
  { a with dtype := .int32, data := a.data.map wrap32 }

/-- numpy `astype(np.int64)` applied to an int32 array: value-preserving widening. -/
def NDArray.astypeInt64 (a : NDArray) : NDArray := { a with dtype := .int64 }

/-- `np.array_equal`: same shape and elementwise equal values (dtype-agnostic). -/
def arrayEqual (a b : NDArray) : Bool := a.shape == b.shape && a.data == b.data

/-- `np.ascontiguousarray`: identity on the element values. -/
def ascontiguousarray (a : NDArray) : NDArray := { a with contiguous := true }

/-- Exceptions raised by the driver.  `ValueError`: `wrongShape`, `modelNotFound`,
`inputCountMismatch`, `taskNotFound`; `TypeError`: `wrongDtype`, `wrongDtypeCast`
("Cannot safely cast"), `inputsNotAList`; plus dict/list/file access errors. -/
inductive Err
  | wrongShape (idx : Nat) (expected got : List Nat)
  | wrongDtypeCast (idx : Nat) (expected got : DType)
  | wrongDtype (idx : Nat) (expected got : DType)
  | modelNotFound (name : String)
  | inputCountMismatch (name : String)
  | inputsNotAList
  | taskNotFound (name : String)
  | keyError (name : String)
  | indexError (idx : Nat)
  | engineLoadFailed (path : String)
deriving DecidableEq

/-- Errors of the spec's "validation error" class: input count mismatch, shape
mismatch, type mismatch. -/
def Err.isValidationError : Err → Bool
  | .wrongShape _ _ _ => true
  | .wrongDtypeCast _ _ _ => true
  | .wrongDtype _ _ _ => true
  | .inputCountMismatch _ => true
  | _ => false

/-- Errors of the spec's "configuration error" class: unknown model or task name,
unreadable engine file. -/
def Err.isConfigError : Err → Bool
  | .modelNotFound _ => true
  | .taskNotFound _ => true
  | .engineLoadFailed _ => true
  | _ => false

/-- The input position a per-input validation error reports, if any. -/
def Err.inputIndex : Err → Option Nat
  | .wrongShape i _ _ => some i
  | .wrongDtypeCast i _ _ => some i
  | .wrongDtype i _ _ => some i
  | _ => none

/-- Static metadata of one I/O tensor of a compiled engine, as queried from
TensorRT in `Binding.__init__` and `run_sequential_tasks`. -/
structure TensorDecl where
  name : String
  isInput : Bool
  dtype : DType
  shape : List Nat
  isShapeInference : Bool
deriving DecidableEq

/-- A deserialized engine: its ordered list of I/O tensors
(`num_io_tensors` is the length). -/
structure Engine where
  tensors : List TensorDecl
deriving DecidableEq

/-- One allocated memory block: its address, its size in bytes, and (for device
blocks) its current contents. -/
structure Buffer where
  addr : Nat
  size : Nat
  contents : List Int
deriving DecidableEq

/-- Runtime state of a Python `Binding` object: the tensor descriptor together
with the lazily created buffers `_host_buf` and `_device_buf`. -/
structure Binding where
  name : String
  is_input : Bool
  dtype : DType
  shape : List Nat
  host_buf : Option Buffer
  device_buf : Option Buffer
deriving DecidableEq

/-- `Binding.__init__` for one engine tensor: both buffers start unallocated. -/
def Binding.ofDecl (d : TensorDecl) : Binding :=
  { name := d.name, is_input := d.isInput, dtype := d.dtype, shape := d.shape,
    host_buf := none, device_buf := none }

/-- The `Binding.device_buffer` property: on first access allocate device memory
of `volume shape * itemsize` bytes at a fresh address taken from the allocation
counter; afterwards return the cached buffer.  Returns the buffer, the updated
binding and the updated counter. -/
def Binding.device_buffer (b : Binding) (alloc : Nat) : Buffer × Binding × Nat :=
  match b.device_buf with
  | some buf => (buf, b, alloc)
  | none =>
    let buf : Buffer := { addr := alloc, size := volume b.shape * b.dtype.itemsize,
                          contents := List.replicate (volume b.shape) 0 }
    (buf, { b with device_buf := some buf }, alloc + 1)

/-- The `Binding.host_buffer` property: same lazy/cached discipline with
page-locked host memory of the same byte size. -/
def Binding.host_buffer (b : Binding) (alloc : Nat) : Buffer × Binding × Nat :=
  match b.host_buf with
  | some buf => (buf, b, alloc)
  | none =>
    let buf : Buffer := { addr := alloc, size := volume b.shape * b.dtype.itemsize,
                          contents := List.replicate (volume b.shape) 0 }
    (buf, { b with host_buf := some buf }, alloc + 1)

/-- `TensorRTEngine.check_input_validity` (tensorrt_driver.py lines 114-129),
translated branch for branch.  Note that the Python code rebinds `input_array`
to the int32-converted array before the `np.array_equal` test, so the test
compares the converted array with its own widening. -/
def check_input_validity (input_idx : Nat) (input_array : NDArray)
    (input_binding : Binding) : Except Err NDArray :=
  if input_array.shape ≠ input_binding.shape ∧
      ¬(input_binding.shape = [1] ∧ input_array.shape = []) then
    .error (.wrongShape input_idx input_binding.shape input_array.shape)
  else if input_array.dtype ≠ input_binding.dtype then
    if input_array.dtype = .int64 ∧ input_binding.dtype = .int32 then
      let converted := input_array.astypeInt32
      if arrayEqual converted converted.astypeInt64 = false then
        .error (.wrongDtypeCast input_idx input_binding.dtype converted.dtype)
      else
        .ok converted
    else
      .error (.wrongDtype input_idx input_binding.dtype input_array.dtype)
  else
    .ok input_array

/-- Generic association-list lookup (Python dict access by key). -/
def assocLookup {α : Type} (m : List (String × α)) (k : String) : Option α :=
  match m with
  | [] => none
  | (k0, v) :: rest => if k0 = k then some v else assocLookup rest k

/-- Python dict item assignment: replace the value of an existing key, append
when the key is absent. -/
def assocSet (m : List (String × Nat)) (k : String) (v : Nat) : List (String × Nat) :=
  match m with
  | [] => [(k, v)]
  | (k0, v0) :: rest => if k0 = k then (k, v) :: rest else (k0, v0) :: assocSet rest k v

/-- `self.inputs[model]` = the input bindings, in binding order (line 101). -/
def inputBindings (bs : List Binding) : List Binding := bs.filter (fun b => b.is_input)

/-- `self.outputs[model]` = the non-input bindings, in binding order (line 102). -/
def outputBindings (bs : List Binding) : List Binding := bs.filter (fun b => !b.is_input)

/-- State kept per model by the manager: the engine, the binding objects, the
device addresses cached at initialization (`self.binding_addresses[model]`) and
the execution context's tensor-address table. -/
structure ModelState where
  engine : Engine
  bindings : List Binding
  binding_addresses : List Nat
  ctxAddresses : List (String × Nat)
deriving DecidableEq

/-- The manager: named model states plus the allocation counter from which every
fresh memory address is drawn. -/
structure Manager where
  models : List (String × ModelState)
  nextAddr : Nat
deriving DecidableEq

/-- Replace the state stored for one model name (dict item assignment: keys are
unique in a Python dict, so the first matching entry is the entry). -/
def setModel (ms : List (String × ModelState)) (name : String) (v : ModelState) :
    List (String × ModelState) :=
  match ms with
  | [] => [(name, v)]
  | (k, v0) :: rest =>
    if k = name then (k, v) :: rest else (k, v0) :: setModel rest name v

/-- One recorded device operation: a host-to-device copy into a device address,
an execution submission, or a device-to-host copy. -/
inductive DevOp
  | htod (dstAddr : Nat) (data : List Int)
  | execAttempt (model : String)
  | dtoh (srcAddr : Nat) (dstAddr : Nat)
deriving DecidableEq

/-- Result of the host-to-device validation/copy loop. -/
structure LoopOut where
  bs : List Binding
  alloc : Nat
  ops : List DevOp
  err : Option Err
deriving DecidableEq

/-- The loop of `run_sequential_tasks` lines 145-148: walk the model's bindings
in order, pairing each input binding with the next supplied array (Python zips
the arrays with `self.inputs[model]`, which are aliases into the binding list);
validate, make contiguous, and copy the data into the binding's device buffer.
The loop stops at the first validation error, returning the partially mutated
binding store and the copies issued so far. -/
def inputLoop (i : Nat) (arrays : List NDArray) (bs : List Binding) (alloc : Nat) :
    LoopOut :=
  match bs with
  | [] => ⟨[], alloc, [], none⟩
  | b :: rest =>
    if b.is_input then
      match arrays with
      | [] =>
        let r := inputLoop i [] rest alloc
        ⟨b :: r.bs, r.alloc, r.ops, r.err⟩
      | a :: as =>
        match check_input_validity i a b with
        | .error e => ⟨b :: rest, alloc, [], some e⟩
        | .ok a1 =>
          let a2 := ascontiguousarray a1
          let p := b.device_buffer alloc
          let b2 := { p.2.1 with device_buf := some { p.1 with contents := a2.data } }
          let r := inputLoop (i + 1) as rest p.2.2
          ⟨b2 :: r.bs, r.alloc, .htod p.1.addr a2.data :: r.ops, r.err⟩
    else
      let r := inputLoop i arrays rest alloc
      ⟨b :: r.bs, r.alloc, r.ops, r.err⟩

/-- The tensor-address loop of `run_sequential_tasks` lines 150-155: for the
i-th I/O tensor, bind the supplied array's raw address when `i < len(inputs)`
and the tensor is a shape-inference tensor, and the cached device-buffer
address `binding_addresses[i]` otherwise. -/
def buildCtx (ctx : List (String × Nat)) (tensors : List TensorDecl) (i : Nat)
    (arrays : List NDArray) (addrs : List Nat) : List (String × Nat) :=
  match tensors with
  | [] => ctx
  | t :: rest =>
    let a :=
      if i < arrays.length ∧ t.isShapeInference then
        (((arrays.get? i).map NDArray.addr).getD 0)
      else
        ((addrs.get? i).getD 0)
    buildCtx (assocSet ctx t.name a) rest (i + 1) arrays addrs

/-- The device contents currently held by each binding, in binding order (the
memory the submitted execution operates on). -/
def devContents (bs : List Binding) : List (List Int) :=
  bs.map (fun b => ((b.device_buf).map Buffer.contents).getD [])

/-- Abstract semantics of `context.execute_async_v3` plus
`self.stream.synchronize`: from the model name and the device contents of all
its bindings, either raise (`none`) or produce the device contents after the
execution completes. -/
def ExecOracle : Type := String → List (List Int) → Option (List (List Int))

/-- Write the post-execution device contents back into the binding store. -/
def writeBack (bs : List Binding) (cs : List (List Int)) : List Binding :=
  match bs, cs with
  | [], _ => []
  | b :: rest, [] => b :: rest
  | b :: rest, c :: cs1 =>
    { b with device_buf := (b.device_buf).map (fun buf => { buf with contents := c }) } ::
      writeBack rest cs1

/-- Result of the output-copy loop. -/
structure DtohOut where
  bs : List Binding
  alloc : Nat
  outs : List NDArray
  ops : List DevOp
deriving DecidableEq

/-- The output loop of `run_sequential_tasks` lines 164-168: for every output
binding allocate a fresh host array (`np.empty`) and fill it with a
device-to-host copy of the binding's device buffer. -/
def dtohLoop (bs : List Binding) (alloc : Nat) : DtohOut :=
  match bs with
  | [] => ⟨[], alloc, [], []⟩
  | b :: rest =>
    if b.is_input then
      let r := dtohLoop rest alloc
      ⟨b :: r.bs, r.alloc, r.outs, r.ops⟩
    else
      let p := b.device_buffer alloc
      let hostOut : NDArray :=
        { dtype := p.2.1.dtype, shape := p.2.1.shape, data := p.1.contents,
          addr := p.2.2, contiguous := true }
      let r := dtohLoop rest (p.2.2 + 1)
      ⟨p.2.1 :: r.bs, r.alloc, hostOut :: r.outs, .dtoh p.1.addr hostOut.addr :: r.ops⟩

/-- The value `run_sequential_tasks` returns: the Python tuple `(None, 0)` on a
caught execution failure, otherwise the list of output arrays. -/
inductive RunRet
  | sentinel
  | outs (arrays : List NDArray)
deriving DecidableEq

/-- Python runtime values, used to state that the failure sentinel (a tuple) is
a different value from every possible success result (a list). -/
inductive PyValue
  | noneV
  | intV (n : Int)
  | tupleV (items : List PyValue)
  | listV (items : List PyValue)
  | arrayV (a : NDArray)

/-- The Python value of a `run_sequential_tasks` return. -/
def retToPy : RunRet → PyValue
  | .sentinel => .tupleV [.noneV, .intV 0]
  | .outs l => .listV (l.map .arrayV)

/-- The message printed when execution raises (line 161, without the wrapped
exception text). -/
def logMsg (name : String) : String := "Error during inference for model " ++ name

/-- The `inputs` argument of `run_sequential_tasks`: an ordered list of arrays
or a dict keyed by tensor name. -/
inductive RunInputs
  | list (arrays : List NDArray)
  | dict (m : List (String × NDArray))

/-- The list comprehension `[inputs[b.name] for b in self.inputs[model]]`
(line 141); a missing key raises. -/
def dictToList (m : List (String × NDArray)) (ibs : List Binding) :
    Except Err (List NDArray) :=
  match ibs with
  | [] => .ok []
  | b :: rest =>
    match assocLookup m b.name with
    | none => .error (.keyError b.name)
    | some a =>
      match dictToList m rest with
      | .error e => .error e
      | .ok l => .ok (a :: l)

/-- Lines 140-141: a dict input is converted to the ordered list of arrays. -/
def toInputList (ins : RunInputs) (ibs : List Binding) : Except Err (List NDArray) :=
  match ins with
  | .list l => .ok l
  | .dict m => dictToList m ibs

/-- The full outcome of one `run_sequential_tasks` call: the returned value or
raised exception, the manager state after the call, the device-operation trace,
and the printed log lines. -/
structure RunResult where
  ret : Except Err RunRet
  mgr : Manager
  devOps : List DevOp
  logs : List String

/-- The execution phase of `run_sequential_tasks` (lines 150-170): rebuild the
context's tensor-address table, submit and synchronize (the only exceptions the
code catches), and on success copy every output device buffer into a fresh host
array, returned in declared output order. -/
def runExecPhase (exec : ExecOracle) (mgr : Manager) (name : String)
    (ms : ModelState) (arrays : List NDArray) (bs1 : List Binding) (alloc1 : Nat)
    (tr1 : List DevOp) : RunResult :=
  let ctx1 := buildCtx ms.ctxAddresses ms.engine.tensors 0 arrays ms.binding_addresses
  match exec name (devContents bs1) with
  | none =>
    ⟨.ok .sentinel,
     ⟨setModel mgr.models name { ms with bindings := bs1, ctxAddresses := ctx1 }, alloc1⟩,
     tr1 ++ [.execAttempt name], [logMsg name]⟩
  | some cs =>
    let bs2 := writeBack bs1 cs
    let d := dtohLoop bs2 alloc1
    ⟨.ok (.outs d.outs),
     ⟨setModel mgr.models name { ms with bindings := d.bs, ctxAddresses := ctx1 }, d.alloc⟩,
     tr1 ++ .execAttempt name :: d.ops, []⟩

/-- `run_sequential_tasks` after the model lookup, dict conversion and input
count check have passed. -/
def runValidated (exec : ExecOracle) (mgr : Manager) (name : String)
    (ms : ModelState) (arrays : List NDArray) : RunResult :=
  let r := inputLoop 0 arrays ms.bindings mgr.nextAddr
  match r.err with
  | some e =>
    ⟨.error e, ⟨setModel mgr.models name { ms with bindings := r.bs }, r.alloc⟩, r.ops, []⟩
  | none => runExecPhase exec mgr name ms arrays r.bs r.alloc r.ops

/-- `TensorRTEngine.run_sequential_tasks` (tensorrt_driver.py lines 131-170). -/
def run_sequential_tasks (exec : ExecOracle) (mgr : Manager) (name : String)
    (ins : RunInputs) : RunResult :=
  match assocLookup mgr.models name with
  | none => ⟨.error (.modelNotFound name), mgr, [], []⟩
  | some ms =>
    match toInputList ins (inputBindings ms.bindings) with
    | .error e => ⟨.error e, mgr, [], []⟩
    | .ok arrays =>
      if arrays.length = (inputBindings ms.bindings).length then
        runValidated exec mgr name ms arrays
      else
        ⟨.error (.inputCountMismatch name), mgr, [], []⟩

/-- The `inputs` argument of `inference_tensorrt`: a list, or any non-list
Python value. -/
inductive InferInputs
  | list (arrays : List NDArray)
  | notAList

/-- `np.array` applied to an already well-formed numeric array, modelled as the
identity on dtype, shape and values (the fresh copy's address is not observed
by any operation studied here). -/
def np_array (a : NDArray) : NDArray := a

/-- The validation comprehension of `inference_tensorrt` lines 179-180:
`check_input_validity(i, np.array(x), self.inputs[task][i])` for each supplied
array; indexing past the binding list raises. -/
def checkAllInputs (i : Nat) (arrays : List NDArray) (ibs : List Binding) :
    Except Err (List NDArray) :=
  match arrays with
  | [] => .ok []
  | a :: rest =>
    match ibs.get? i with
    | none => .error (.indexError i)
    | some b =>
      match check_input_validity i (np_array a) b with
      | .error e => .error e
      | .ok a1 =>
        match checkAllInputs (i + 1) rest ibs with
        | .error e => .error e
        | .ok l => .ok (a1 :: l)

/-- `TensorRTEngine.inference_tensorrt` (tensorrt_driver.py lines 172-183). -/
def inference_tensorrt (exec : ExecOracle) (mgr : Manager) (task : String)
    (inputs : InferInputs) : RunResult :=
  match inputs with
  | .notAList => ⟨.error .inputsNotAList, mgr, [], []⟩
  | .list arrays =>
    match assocLookup mgr.models task with
    | none => ⟨.error (.taskNotFound task), mgr, [], []⟩
    | some ms =>
      match checkAllInputs 0 arrays (inputBindings ms.bindings) with
      | .error e => ⟨.error e, mgr, [], []⟩
      | .ok arrays1 => run_sequential_tasks exec mgr task (.list arrays1)

/-- The path configuration handed to `TensorRTEngine.__init__` as `**kwargs`:
the six full-precision engine paths, the six half-precision engine paths, and
the plugin library path. -/
structure PathConfig where
  rt_F : String
  rt_M : String
  rt_GW : String
  rt_S : String
  rt_SE : String
  rt_SL : String
  rt_F_half : String
  rt_M_half : String
  rt_GW_half : String
  rt_S_half : String
  rt_SE_half : String
  rt_SL_half : String
  grid_sample_3d : String
deriving DecidableEq

/-- `self.model_paths` (lines 59-76): the fixed six model names mapped to the
precision-selected engine paths, in source order. -/
def model_paths (half : Bool) (cfg : PathConfig) : List (String × String) :=
  if half then
    [("feature_extractor", cfg.rt_F_half), ("motion_extractor", cfg.rt_M_half),
     ("generator", cfg.rt_GW_half), ("stitching_retargeting", cfg.rt_S_half),
     ("stitching_retargeting_eye", cfg.rt_SE_half),
     ("stitching_retargeting_lip", cfg.rt_SL_half)]
  else
    [("feature_extractor", cfg.rt_F), ("motion_extractor", cfg.rt_M),
     ("generator", cfg.rt_GW), ("stitching_retargeting", cfg.rt_S),
     ("stitching_retargeting_eye", cfg.rt_SE),
     ("stitching_retargeting_lip", cfg.rt_SL)]

/-- The six supported model names. -/
def supported_models : List String :=
  ["feature_extractor", "motion_extractor", "generator", "stitching_retargeting",
   "stitching_retargeting_eye", "stitching_retargeting_lip"]

/-- Initialization-time events observable outside the process: loading and
registering the plugin library (`load_plugins`, lines 88-90) and deserializing
one engine file (`load_engine`, lines 106-108). -/
inductive InitEvent
  | pluginLoad
  | deserializeEngine (path : String)
deriving DecidableEq

/-- Line 100: `[b.device_buffer.ptr for b in bindings]` — walks the bindings in
order, forcing each device buffer into existence and collecting its address. -/
def forceAddresses (bs : List Binding) (alloc : Nat) : List Binding × List Nat × Nat :=
  match bs with
  | [] => ([], [], alloc)
  | b :: rest =>
    let p := b.device_buffer alloc
    let r := forceAddresses rest p.2.2
    (p.2.1 :: r.1, p.1.addr :: r.2.1, r.2.2)

/-- Force the device buffer of every binding satisfying `p`, in binding order. -/
def forceDevice (p : Binding → Bool) (bs : List Binding) (alloc : Nat) :
    List Binding × Nat :=
  match bs with
  | [] => ([], alloc)
  | b :: rest =>
    if p b then
      let q := b.device_buffer alloc
      let r := forceDevice p rest q.2.2
      (q.2.1 :: r.1, r.2)
    else
      let r := forceDevice p rest alloc
      (b :: r.1, r.2)

/-- `TensorRTEngine.prepare_buffers` (lines 110-112): touch the device buffer of
every binding in `self.inputs[model] + self.outputs[model]` — the input
bindings first, then the output bindings.  Only device buffers are forced. -/
def prepare_buffers (bs : List Binding) (alloc : Nat) : List Binding × Nat :=
  let r := forceDevice (fun b => b.is_input) bs alloc
  forceDevice (fun b => !b.is_input) r.1 r.2

/-- The per-model part of `initialize_engines` (lines 94-103): create the
bindings, force every device buffer while caching its address, partition into
inputs and outputs (derived views here), and run `prepare_buffers`. -/
def initializeModel (eng : Engine) (alloc : Nat) : ModelState × Nat :=
  let bs0 := eng.tensors.map Binding.ofDecl
  let f := forceAddresses bs0 alloc
  let q := prepare_buffers f.1 f.2.2
  ({ engine := eng, bindings := q.1, binding_addresses := f.2.1, ctxAddresses := [] },
   q.2)

/-- `TensorRTEngine.initialize_engines` (lines 92-103) over the named engine
paths: deserialize each engine (the on-disk blobs are the external environment
`disk`) and build its model state.  Returns the models with the final
allocation counter, plus the deserialization events in order. -/
def initialize_engines (disk : String → Option Engine)
    (paths : List (String × String)) (alloc : Nat) :
    Except Err (List (String × ModelState) × Nat) × List InitEvent :=
  match paths with
  | [] => (.ok ([], alloc), [])
  | (name, path) :: rest =>
    match disk path with
    | none => (.error (.engineLoadFailed path), [.deserializeEngine path])
    | some eng =>
      let m := initializeModel eng alloc
      let r := initialize_engines disk rest m.2
      (match r.1 with
       | .error e => .error e
       | .ok p => .ok ((name, m.1) :: p.1, p.2),
       .deserializeEngine path :: r.2)

/-- `TensorRTEngine.__init__` (lines 57-86): select the precision path map,
load and register the plugin (exactly one `pluginLoad` event, before any
deserialization), then initialize every engine eagerly. -/
def constructManager (disk : String → Option Engine) (half : Bool)
    (cfg : PathConfig) : Except Err Manager × List InitEvent :=
  let paths := model_paths half cfg
  let r := initialize_engines disk paths 0
  (match r.1 with
   | .error e => .error e
   | .ok p => .ok { models := p.1, nextAddr := p.2 },
   InitEvent.pluginLoad :: r.2)

/-- One `TensorRTEngine(...)` constructor call made by the process. -/
structure Construction where
  half : Bool
  cfg : PathConfig

/-- The initialization events of a whole process that constructs a sequence of
managers. -/
def processTrace (disk : String → Option Engine) (cs : List Construction) :
    List InitEvent :=
  (cs.map (fun c => (constructManager disk c.half c.cfg).2)).flatten

/-- Number of plugin load/registration events in a trace. -/
def countPluginLoads (evs : List InitEvent) : Nat :=
  (evs.filter (fun e => e = InitEvent.pluginLoad)).length

/-- The addresses of the buffers a binding currently owns. -/
def bufAddrs (b : Binding) : List Nat :=
  ((b.host_buf).map Buffer.addr).toList ++ ((b.device_buf).map Buffer.addr).toList

/-- Every buffer owned by a binding in the store lies below the allocation
counter (every address the manager owns was drawn from the counter). -/
def bufAddrsBelow (bs : List Binding) (a : Nat) : Prop :=
  ∀ b ∈ bs, ∀ x ∈ bufAddrs b, x < a

/-- All device buffers of the store are allocated. -/
def allDeviceAllocated (bs : List Binding) : Prop :=
  ∀ b ∈ bs, (b.device_buf).isSome = true

/-- The manager-wide allocation invariant established by construction. -/
def addrsBounded (mgr : Manager) : Prop :=
  ∀ name m, assocLookup mgr.models name = some m → bufAddrsBelow m.bindings mgr.nextAddr

instance (bs : List Binding) : Decidable (allDeviceAllocated bs) := by
  unfold allDeviceAllocated
  infer_instance

instance (bs : List Binding) (a : Nat) : Decidable (bufAddrsBelow bs a) := by
  unfold bufAddrsBelow
  infer_instance

/-! Concrete fixtures: small engines and managers used to evaluate the embedded
operations at specific inputs. -/

/-- A one-input/one-output engine: int32 input `x` of shape (1,), float32
output `y` of shape (1,). -/
def eng1 : Engine :=
  ⟨[⟨"x", true, .int32, [1], false⟩, ⟨"y", false, .float32, [1], false⟩]⟩

/-- A two-input engine: int32 inputs `x0`, `x1` of shape (1,) and a float32
output `y`. -/
def eng2 : Engine :=
  ⟨[⟨"x0", true, .int32, [1], false⟩, ⟨"x1", true, .int32, [1], false⟩,
    ⟨"y", false, .float32, [1], false⟩]⟩

/-- An engine whose shape-inference input comes after an output in the I/O
tensor order. -/
def engSI : Engine :=
  ⟨[⟨"out0", false, .float32, [1], false⟩, ⟨"in0", true, .int32, [1], true⟩]⟩

/-- A path configuration whose twelve engine paths are all `"e1"`. -/
def cfg0 : PathConfig :=
  ⟨"e1", "e1", "e1", "e1", "e1", "e1", "e1", "e1", "e1", "e1", "e1", "e1",
   "plugin.so"⟩

/-- A disk on which every path deserializes to `eng1`. -/
def disk0 : String → Option Engine := fun _ => some eng1

/-- Manager holding `eng1` under the name `"m"`, fully initialized. -/
def mgr1 : Manager :=
  ⟨[("m", (initializeModel eng1 0).1)], (initializeModel eng1 0).2⟩

/-- Manager holding `eng2` under the name `"m"`, fully initialized. -/
def mgr2 : Manager :=
  ⟨[("m", (initializeModel eng2 0).1)], (initializeModel eng2 0).2⟩

/-- Manager holding `engSI` under the name `"m"`, fully initialized. -/
def mgrSI : Manager :=
  ⟨[("m", (initializeModel engSI 0).1)], (initializeModel engSI 0).2⟩

/-- The manager produced by a successful construction over `disk0`. -/
def mgrC : Manager := ((constructManager disk0 true cfg0).1).toOption.getD ⟨[], 0⟩

/-- An execution semantics that leaves all device contents unchanged. -/
def execId : ExecOracle := fun _ cs => some cs

/-- An execution semantics that always raises. -/
def execFail : ExecOracle := fun _ _ => none

/-- A well-typed int32 input of shape (1,). -/
def arrI32 : NDArray := ⟨.int32, [1], [5], 500, true⟩

/-- An int64 input whose value does not fit in 32 bits. -/
def arrBig : NDArray := ⟨.int64, [1], [2147483648], 501, true⟩

/-- An int32 input of the wrong shape (2,). -/
def arrBadShape : NDArray := ⟨.int32, [2], [7, 8], 502, true⟩

/-- A not-yet-allocated input binding: int32, shape (1,). -/
def bndIn : Binding := Binding.ofDecl ⟨"x", true, .int32, [1], false⟩

/-! Theorems.  Each claim of the specification is settled by exactly one
theorem below; shared reasoning lives in the helper lemmas. -/

theorem run_eq_of_lookup_none {exec : ExecOracle} {mgr : Manager} {name : String}
    {ins : RunInputs} (h : assocLookup mgr.models name = none) :
    run_sequential_tasks exec mgr name ins = ⟨.error (.modelNotFound name), mgr, [], []⟩ := by
  simp only [run_sequential_tasks, h]

theorem run_eq_of_toList_err {exec : ExecOracle} {mgr : Manager} {name : String}
    {ins : RunInputs} {ms : ModelState} {e : Err}
    (h : assocLookup mgr.models name = some ms)
    (h2 : toInputList ins (inputBindings ms.bindings) = .error e) :
    run_sequential_tasks exec mgr name ins = ⟨.error e, mgr, [], []⟩ := by
  simp only [run_sequential_tasks, h, h2]

theorem run_eq_of_count_mismatch {exec : ExecOracle} {mgr : Manager} {name : String}
    {ins : RunInputs} {ms : ModelState} {arrays : List NDArray}
    (h : assocLookup mgr.models name = some ms)
    (h2 : toInputList ins (inputBindings ms.bindings) = .ok arrays)
    (h3 : ¬ arrays.length = (inputBindings ms.bindings).length) :
    run_sequential_tasks exec mgr name ins =
      ⟨.error (.inputCountMismatch name), mgr, [], []⟩ := by
  simp only [run_sequential_tasks, h, h2, h3, if_false]

theorem run_eq_of_validated {exec : ExecOracle} {mgr : Manager} {name : String}
    {ins : RunInputs} {ms : ModelState} {arrays : List NDArray}
    (h : assocLookup mgr.models name = some ms)
    (h2 : toInputList ins (inputBindings ms.bindings) = .ok arrays)
    (h3 : arrays.length = (inputBindings ms.bindings).length) :
    run_sequential_tasks exec mgr name ins = runValidated exec mgr name ms arrays := by
  simp only [run_sequential_tasks, h, h2, h3, if_true]

theorem runValidated_eq_of_err {exec : ExecOracle} {mgr : Manager} {name : String}
    {ms : ModelState} {arrays : List NDArray} {e : Err}
    (h : (inputLoop 0 arrays ms.bindings mgr.nextAddr).err = some e) :
    runValidated exec mgr name ms arrays =
      ⟨.error e,
       ⟨setModel mgr.models name
          { ms with bindings := (inputLoop 0 arrays ms.bindings mgr.nextAddr).bs },
        (inputLoop 0 arrays ms.bindings mgr.nextAddr).alloc⟩,
       (inputLoop 0 arrays ms.bindings mgr.nextAddr).ops, []⟩ := by
  simp only [runValidated, h]

theorem runValidated_eq_of_ok {exec : ExecOracle} {mgr : Manager} {name : String}
    {ms : ModelState} {arrays : List NDArray}
    (h : (inputLoop 0 arrays ms.bindings mgr.nextAddr).err = none) :
    runValidated exec mgr name ms arrays =
      runExecPhase exec mgr name ms arrays
        (inputLoop 0 arrays ms.bindings mgr.nextAddr).bs
        (inputLoop 0 arrays ms.bindings mgr.nextAddr).alloc
        (inputLoop 0 arrays ms.bindings mgr.nextAddr).ops := by
  simp only [runValidated, h]

theorem runExecPhase_eq_of_fail {exec : ExecOracle} {mgr : Manager} {name : String}
    {ms : ModelState} {arrays : List NDArray} {bs1 : List Binding} {alloc1 : Nat}
    {tr1 : List DevOp} (h : exec name (devContents bs1) = none) :
    runExecPhase exec mgr name ms arrays bs1 alloc1 tr1 =
      ⟨.ok .sentinel,
       ⟨setModel mgr.models name
          { ms with
              bindings := bs1
              ctxAddresses :=
                buildCtx ms.ctxAddresses ms.engine.tensors 0 arrays ms.binding_addresses },
        alloc1⟩,
       tr1 ++ [.execAttempt name], [logMsg name]⟩ := by
  simp only [runExecPhase, h]

theorem runExecPhase_eq_of_exec {exec : ExecOracle} {mgr : Manager} {name : String}
    {ms : ModelState} {arrays : List NDArray} {bs1 : List Binding} {alloc1 : Nat}
    {tr1 : List DevOp} {cs : List (List Int)}
    (h : exec name (devContents bs1) = some cs) :
    runExecPhase exec mgr name ms arrays bs1 alloc1 tr1 =
      ⟨.ok (.outs (dtohLoop (writeBack bs1 cs) alloc1).outs),
       ⟨setModel mgr.models name
          { ms with
              bindings := (dtohLoop (writeBack bs1 cs) alloc1).bs
              ctxAddresses :=
                buildCtx ms.ctxAddresses ms.engine.tensors 0 arrays ms.binding_addresses },
        (dtohLoop (writeBack bs1 cs) alloc1).alloc⟩,
       tr1 ++ .execAttempt name :: (dtohLoop (writeBack bs1 cs) alloc1).ops, []⟩ := by
  simp only [runExecPhase, h]

/-- The `np.array_equal` test of `check_input_validity` compares the converted
array with its own widening, so it always succeeds: the "Cannot safely cast"
branch is dead code. -/
theorem arrayEqual_astype_self (a : NDArray) :
    arrayEqual a.astypeInt32 a.astypeInt32.astypeInt64 = true := by
  simp [arrayEqual, NDArray.astypeInt32, NDArray.astypeInt64]

/-- Every error raised by `check_input_validity` reports the position it was
called with. -/
theorem check_err_index {i : Nat} {a : NDArray} {b : Binding} {e : Err}
    (h : check_input_validity i a b = .error e) : e.inputIndex = some i := by
  simp only [check_input_validity] at h
  split at h
  · cases h
    rfl
  · split at h
    · split at h
      · rw [arrayEqual_astype_self] at h
        simp at h
      · cases h
        rfl
    · cases h

/-- When the validation/copy loop stops with an error, every device operation
it issued is a host-to-device copy, and the failing position equals the start
index plus the number of copies issued. -/
theorem inputLoop_err_spec {bs : List Binding} {arrays : List NDArray} {i alloc : Nat}
    {e : Err} (h : (inputLoop i arrays bs alloc).err = some e) :
    (∀ op ∈ (inputLoop i arrays bs alloc).ops, ∃ a d, op = DevOp.htod a d) ∧
      e.inputIndex = some (i + (inputLoop i arrays bs alloc).ops.length) := by
  induction bs generalizing arrays i alloc with
  | nil => simp [inputLoop] at h
  | cons b rest ih =>
    by_cases hin : b.is_input
    · match arrays with
      | [] =>
        simp only [inputLoop, hin, if_true] at h ⊢
        exact ih h
      | a :: as =>
        rcases hc : check_input_validity i a b with e0 | a1
        · simp only [inputLoop, hin, if_true, hc] at h ⊢
          cases h
          simpa using check_err_index hc
        · simp only [inputLoop, hin, if_true, hc] at h ⊢
          have := ih h
          refine ⟨?_, ?_⟩
          · intro op hop
            rcases List.mem_cons.mp hop with hop | hop
            · exact ⟨_, _, hop⟩
            · exact this.1 op hop
          · rw [this.2]
            congr 1
            simp only [List.length_cons]
            omega
    · simp only [inputLoop, hin, if_false] at h ⊢
      exact ih h

/-- The only error a dict-to-list input conversion raises is a key error,
which carries no input position. -/
theorem toInputList_err_no_index {ins : RunInputs} {ibs : List Binding} {e : Err}
    (h : toInputList ins ibs = .error e) : e.inputIndex = none := by
  rcases ins with l | m
  · simp [toInputList] at h
  · simp only [toInputList] at h
    induction ibs with
    | nil => simp [dictToList] at h
    | cons b rest ih =>
      simp only [dictToList] at h
      rcases hk : assocLookup m b.name with _ | a
      · rw [hk] at h
        cases h
        rfl
      · rw [hk] at h
        rcases hr : dictToList m rest with e4 | l4
        · rw [hr] at h
          cases h
          exact ih hr
        · rw [hr] at h
          cases h

/-- Claim C2, amended: a `run` call that fails validation issues no execution
and no device-to-host copy; every device operation it did issue is a
host-to-device copy, and when the error reports input position `j`, exactly
`j` copies — those of the earlier, already validated positions — were issued
before the error.  In particular, an error at the first position (or a
count/model/key error) is raised before any device work. -/
theorem c2_amended (exec : ExecOracle) (mgr : Manager) (name : String)
    (ins : RunInputs) (e : Err)
    (h : (run_sequential_tasks exec mgr name ins).ret = .error e) :
    (∀ op ∈ (run_sequential_tasks exec mgr name ins).devOps, ∃ a d, op = DevOp.htod a d) ∧
      (∀ j, e.inputIndex = some j →
        (run_sequential_tasks exec mgr name ins).devOps.length = j) ∧
      (e.inputIndex = none → (run_sequential_tasks exec mgr name ins).devOps = []) := by
  rcases hl : assocLookup mgr.models name with _ | ms
  · rw [run_eq_of_lookup_none hl] at h ⊢
    cases h
    refine ⟨by simp, fun j hj => ?_, fun _ => rfl⟩
    simp [Err.inputIndex] at hj
  · rcases ht : toInputList ins (inputBindings ms.bindings) with e2 | arrays
    · rw [run_eq_of_toList_err hl ht] at h ⊢
      cases h
      refine ⟨by simp, fun j hj => ?_, fun _ => rfl⟩
      rw [toInputList_err_no_index ht] at hj
      cases hj
    · by_cases hlen : arrays.length = (inputBindings ms.bindings).length
      · rw [run_eq_of_validated hl ht hlen] at h ⊢
        rcases herr : (inputLoop 0 arrays ms.bindings mgr.nextAddr).err with _ | e0
        · rw [runValidated_eq_of_ok herr] at h
          rcases hex : exec name
              (devContents (inputLoop 0 arrays ms.bindings mgr.nextAddr).bs) with _ | cs
          · rw [runExecPhase_eq_of_fail hex] at h
            cases h
          · rw [runExecPhase_eq_of_exec hex] at h
            cases h
        · rw [runValidated_eq_of_err herr] at h ⊢
          cases h
          have hspec := inputLoop_err_spec herr
          refine ⟨hspec.1, fun j hj => ?_, fun hn => ?_⟩
          · rw [hspec.2] at hj
            cases hj
            simp
          · rw [hspec.2] at hn
            cases hn
      · rw [run_eq_of_count_mismatch hl ht hlen] at h ⊢
        cases h
        refine ⟨by simp, fun j hj => ?_, fun _ => rfl⟩
        simp [Err.inputIndex] at hj

/-- Every error raised by `check_input_validity` is of the validation class. -/
theorem check_err_validation {i : Nat} {a : NDArray} {b : Binding} {e : Err}
    (h : check_input_validity i a b = .error e) : e.isValidationError = true := by
  simp only [check_input_validity] at h
  split at h
  · cases h
    rfl
  · split at h
    · split at h
      · rw [arrayEqual_astype_self] at h
        simp at h
      · cases h
        rfl
    · cases h

/-- Every error the validation/copy loop stops with is of the validation
class. -/
theorem inputLoop_err_validation {bs : List Binding} {arrays : List NDArray}
    {i alloc : Nat} {e : Err} (h : (inputLoop i arrays bs alloc).err = some e) :
    e.isValidationError = true := by
  induction bs generalizing arrays i alloc with
  | nil => simp [inputLoop] at h
  | cons b rest ih =>
    by_cases hin : b.is_input
    · match arrays with
      | [] =>
        simp only [inputLoop, hin, if_true] at h
        exact ih h
      | a :: as =>
        rcases hc : check_input_validity i a b with e0 | a1
        · simp only [inputLoop, hin, if_true, hc] at h
          cases h
          exact check_err_validation hc
        · simp only [inputLoop, hin, if_true, hc] at h
          exact ih h
    · simp only [inputLoop, hin, if_false] at h
      exact ih h

/-- A mismatched, non-exempt shape at position `k` of the supplied arrays
forces the validation/copy loop to stop with an error. -/
theorem inputLoop_err_of_badShape {bs : List Binding} {arrays : List NDArray}
    {k : Nat} {a : NDArray} {b : Binding} (i alloc : Nat)
    (ha : arrays.get? k = some a) (hb : (inputBindings bs).get? k = some b)
    (hshape : a.shape ≠ b.shape) (hspec : ¬(b.shape = [1] ∧ a.shape = [])) :
    ∃ e, (inputLoop i arrays bs alloc).err = some e := by
  induction bs generalizing arrays k i alloc with
  | nil => simp [inputBindings] at hb
  | cons b0 rest ih =>
    by_cases hin : b0.is_input
    · have hsplit : inputBindings (b0 :: rest) = b0 :: inputBindings rest := by
        simp [inputBindings, hin]
      rw [hsplit] at hb
      match arrays, k with
      | [], _ => simp at ha
      | a0 :: as, 0 =>
        simp only [List.get?] at ha hb
        cases ha
        cases hb
        have hcond : a.shape ≠ b.shape ∧ ¬(b.shape = [1] ∧ a.shape = []) :=
          ⟨hshape, hspec⟩
        simp only [inputLoop, hin, if_true, check_input_validity, if_pos hcond]
        exact ⟨_, rfl⟩
      | a0 :: as, Nat.succ k1 =>
        simp only [List.get?] at ha hb
        rcases hc : check_input_validity i a0 b0 with e0 | a1
        · simp only [inputLoop, hin, if_true, hc]
          exact ⟨_, rfl⟩
        · simp only [inputLoop, hin, if_true, hc]
          exact ih (i + 1) (b0.device_buffer alloc).2.2 ha hb
    · have hsplit : inputBindings (b0 :: rest) = inputBindings rest := by
        simp [inputBindings, hin]
      rw [hsplit] at hb
      simp only [inputLoop, hin, if_false]
      exact ih i alloc ha hb

/-- Witness for `c2_amended` at the two-input counterexample call: the error
reports position 1 and exactly one host-to-device copy was issued. -/
theorem c2_amended_witness :
    (∀ op ∈ (run_sequential_tasks execId mgr2 "m"
        (.list [arrI32, arrBadShape])).devOps, ∃ a d, op = DevOp.htod a d) ∧
      (run_sequential_tasks execId mgr2 "m"
        (.list [arrI32, arrBadShape])).devOps.length = 1 := by
  have h := c2_amended execId mgr2 "m" (.list [arrI32, arrBadShape])
    (.wrongShape 1 [1] [2]) (by decide)
  exact ⟨h.1, h.2.1 1 rfl⟩

/-- Claim C4: `check_input_validity` raises the shape validation error exactly
when the supplied array's shape differs from the declared shape and the pairing
is not the one exempt case (declared unit 1-D shape, supplied 0-D scalar); in
the exempt case a type-matching scalar is accepted outright.  At the `run`
level, a mismatched non-exempt shape at any position of a call that reaches the
per-input loop makes the call fail with a validation error. -/
theorem c4_shape_validation (i : Nat) (a : NDArray) (b : Binding) :
    (check_input_validity i a b = .error (.wrongShape i b.shape a.shape) ↔
      a.shape ≠ b.shape ∧ ¬(b.shape = [1] ∧ a.shape = [])) ∧
    (b.shape = [1] → a.shape = [] → a.dtype = b.dtype →
      check_input_validity i a b = .ok a) ∧
    (∀ (exec : ExecOracle) (mgr : Manager) (name : String) (ms : ModelState)
        (arrays : List NDArray) (k : Nat),
      assocLookup mgr.models name = some ms →
      arrays.length = (inputBindings ms.bindings).length →
      arrays.get? k = some a → (inputBindings ms.bindings).get? k = some b →
      a.shape ≠ b.shape → ¬(b.shape = [1] ∧ a.shape = []) →
      ∃ e, (run_sequential_tasks exec mgr name (.list arrays)).ret = .error e ∧
        e.isValidationError = true) := by
  refine ⟨?_, ?_, ?_⟩
  · by_cases hc : a.shape ≠ b.shape ∧ ¬(b.shape = [1] ∧ a.shape = [])
    · simp only [check_input_validity, if_pos hc]
      exact ⟨fun _ => hc, fun _ => by trivial⟩
    · simp only [check_input_validity, if_neg hc]
      refine ⟨fun h => ?_, fun h => absurd h hc⟩
      split at h
      · split at h
        · rw [arrayEqual_astype_self] at h
          simp at h
        · simp at h
      · simp at h
  · intro h1 h2 h3
    have hc : ¬(a.shape ≠ b.shape ∧ ¬(b.shape = [1] ∧ a.shape = [])) := by
      intro hcc
      exact hcc.2 ⟨h1, h2⟩
    have hd : ¬ a.dtype ≠ b.dtype := by simp [h3]
    simp only [check_input_validity, if_neg hc, if_neg hd]
  · intro exec mgr name ms arrays k hl hlen ha hb hshape hspec
    have hloop := inputLoop_err_of_badShape 0 mgr.nextAddr ha hb hshape hspec
    rcases hloop with ⟨e, he⟩
    have ht : toInputList (.list arrays) (inputBindings ms.bindings) = .ok arrays := rfl
    rw [run_eq_of_validated hl ht hlen, runValidated_eq_of_err he]
    exact ⟨e, rfl, inputLoop_err_validation he⟩

/-- Witness for `c4_shape_validation`: the scalar exemption accepts a 0-D
int32 scalar against a declared (1,) int32 input, and a (2,)-shaped array
against the same input is the shape error. -/
theorem c4_shape_validation_witness :
    check_input_validity 0 ⟨.int32, [], [7], 5, true⟩ bndIn =
      .ok ⟨.int32, [], [7], 5, true⟩ ∧
    check_input_validity 1 arrBadShape bndIn = .error (.wrongShape 1 [1] [2]) := by
  refine ⟨(c4_shape_validation 0 ⟨.int32, [], [7], 5, true⟩ bndIn).2.1 rfl rfl rfl, ?_⟩
  exact (c4_shape_validation 1 arrBadShape bndIn).1.mpr (by decide)

/-- Claim C5: a `run` call with a model name absent from the manager's engine
collection fails with the configuration error `ValueError("Model name ... not
found in engines")`, and `infer` fails likewise with `ValueError("Task ... not
found")` for an unknown task; in both cases the manager is returned exactly as
it was (no buffer allocation) and the device-operation trace is empty (no
device work). -/
theorem c5_unknown_model (exec : ExecOracle) (mgr : Manager) (name : String)
    (h : assocLookup mgr.models name = none) :
    (∀ ins, run_sequential_tasks exec mgr name ins =
        ⟨.error (.modelNotFound name), mgr, [], []⟩) ∧
    Err.isConfigError (.modelNotFound name) = true ∧
    (∀ arrays, inference_tensorrt exec mgr name (.list arrays) =
        ⟨.error (.taskNotFound name), mgr, [], []⟩) ∧
    Err.isConfigError (.taskNotFound name) = true := by
  refine ⟨fun ins => run_eq_of_lookup_none h, rfl, fun arrays => ?_, rfl⟩
  simp only [inference_tensorrt, h]

/-- Witness for `c5_unknown_model`: the unknown name `"nope"` on the concrete
one-model manager. -/
theorem c5_unknown_model_witness :
    run_sequential_tasks execId mgr1 "nope" (.list [arrI32]) =
      ⟨.error (.modelNotFound "nope"), mgr1, [], []⟩ ∧
    inference_tensorrt execId mgr1 "nope" (.list [arrI32]) =
      ⟨.error (.taskNotFound "nope"), mgr1, [], []⟩ := by
  have h := c5_unknown_model execId mgr1 "nope" (by decide)
  exact ⟨h.1 (.list [arrI32]), h.2.2.1 [arrI32]⟩

/-- Claim C10: `run` returns the fixed pair `(None, 0)` exactly when the call
reaches the execution phase and submission/synchronization raises; every call
whose execution completes returns the list of output arrays; and as Python
values the failure tuple is never equal to a returned list, even an empty
one. -/
theorem c10_sentinel_iff (exec : ExecOracle) (mgr : Manager) (name : String)
    (ins : RunInputs) :
    ((run_sequential_tasks exec mgr name ins).ret = .ok .sentinel ↔
      ∃ ms arrays, assocLookup mgr.models name = some ms ∧
        toInputList ins (inputBindings ms.bindings) = .ok arrays ∧
        arrays.length = (inputBindings ms.bindings).length ∧
        (inputLoop 0 arrays ms.bindings mgr.nextAddr).err = none ∧
        exec name (devContents (inputLoop 0 arrays ms.bindings mgr.nextAddr).bs) =
          none) ∧
    (∀ ms arrays cs, assocLookup mgr.models name = some ms →
      toInputList ins (inputBindings ms.bindings) = .ok arrays →
      arrays.length = (inputBindings ms.bindings).length →
      (inputLoop 0 arrays ms.bindings mgr.nextAddr).err = none →
      exec name (devContents (inputLoop 0 arrays ms.bindings mgr.nextAddr).bs) =
        some cs →
      (run_sequential_tasks exec mgr name ins).ret =
        .ok (.outs (dtohLoop
          (writeBack (inputLoop 0 arrays ms.bindings mgr.nextAddr).bs cs)
          (inputLoop 0 arrays ms.bindings mgr.nextAddr).alloc).outs)) ∧
    (∀ l, retToPy .sentinel ≠ retToPy (.outs l)) := by
  refine ⟨⟨?_, ?_⟩, ?_, ?_⟩
  · intro h
    rcases hl : assocLookup mgr.models name with _ | ms
    · rw [run_eq_of_lookup_none hl] at h
      cases h
    · rcases ht : toInputList ins (inputBindings ms.bindings) with e2 | arrays
      · rw [run_eq_of_toList_err hl ht] at h
        cases h
      · by_cases hlen : arrays.length = (inputBindings ms.bindings).length
        · rcases herr : (inputLoop 0 arrays ms.bindings mgr.nextAddr).err with _ | e0
          · rcases hex : exec name
                (devContents (inputLoop 0 arrays ms.bindings mgr.nextAddr).bs)
                with _ | cs
            · exact ⟨ms, arrays, rfl, ht, hlen, herr, hex⟩
            · rw [run_eq_of_validated hl ht hlen, runValidated_eq_of_ok herr,
                runExecPhase_eq_of_exec hex] at h
              simp at h
          · rw [run_eq_of_validated hl ht hlen, runValidated_eq_of_err herr] at h
            cases h
        · rw [run_eq_of_count_mismatch hl ht hlen] at h
          cases h
  · rintro ⟨ms, arrays, hl, ht, hlen, herr, hex⟩
    rw [run_eq_of_validated hl ht hlen, runValidated_eq_of_ok herr,
      runExecPhase_eq_of_fail hex]
  · intro ms arrays cs hl ht hlen herr hex
    rw [run_eq_of_validated hl ht hlen, runValidated_eq_of_ok herr,
      runExecPhase_eq_of_exec hex]
  · intro l
    simp [retToPy]

/-- Witness for `c10_sentinel_iff`: on the concrete one-model manager, the
always-raising execution produces the sentinel, and the tuple sentinel differs
from the empty output list as a Python value. -/
theorem c10_sentinel_iff_witness :
    (run_sequential_tasks execFail mgr1 "m" (.list [arrI32])).ret = .ok .sentinel ∧
    retToPy .sentinel ≠ retToPy (.outs []) := by
  refine ⟨?_, (c10_sentinel_iff execFail mgr1 "m" (.list [arrI32])).2.2 []⟩
  exact (c10_sentinel_iff execFail mgr1 "m" (.list [arrI32])).1.mpr
    ⟨(initializeModel eng1 0).1, [arrI32], by decide, rfl, by decide, by decide, rfl⟩

/-- Device buffer slots with the same allocation status, address and byte size
(the contents may differ). -/
def obufStaticEq : Option Buffer → Option Buffer → Prop
  | none, none => True
  | some a, some c => a.addr = c.addr ∧ a.size = c.size
  | _, _ => False

/-- Bindings that differ at most in the contents of their device buffer. -/
def bindingStaticEq (b c : Binding) : Prop :=
  b.name = c.name ∧ b.is_input = c.is_input ∧ b.dtype = c.dtype ∧
    b.shape = c.shape ∧ b.host_buf = c.host_buf ∧
    obufStaticEq b.device_buf c.device_buf

/-- Model states with the same engine, cached addresses and static binding
data (device contents and the context address table may differ). -/
def modelStaticEq (m c : ModelState) : Prop :=
  m.engine = c.engine ∧ m.binding_addresses = c.binding_addresses ∧
    List.Forall₂ bindingStaticEq m.bindings c.bindings

/-- Managers with the same models, allocation counter and static per-model
data: nothing the configuration or a later call depends on has changed. -/
def managerStaticEq (g h : Manager) : Prop :=
  g.nextAddr = h.nextAddr ∧
    List.Forall₂ (fun p q => p.1 = q.1 ∧ modelStaticEq p.2 q.2) g.models h.models

theorem obufStaticEq_refl (x : Option Buffer) : obufStaticEq x x := by
  cases x <;> simp [obufStaticEq]

theorem bindingStaticEq_refl (b : Binding) : bindingStaticEq b b :=
  ⟨rfl, rfl, rfl, rfl, rfl, obufStaticEq_refl _⟩

theorem forall₂_bindingStaticEq_refl (bs : List Binding) :
    List.Forall₂ bindingStaticEq bs bs :=
  List.forall₂_same.mpr (fun b _ => bindingStaticEq_refl b)

theorem modelStaticEq_refl (m : ModelState) : modelStaticEq m m :=
  ⟨rfl, rfl, forall₂_bindingStaticEq_refl _⟩

/-- On a store whose device buffers are all allocated, the validation/copy
loop allocates nothing and changes only device-buffer contents. -/
theorem inputLoop_static_of_allocated {bs : List Binding} {arrays : List NDArray}
    {i alloc : Nat} (hall : allDeviceAllocated bs) :
    (inputLoop i arrays bs alloc).alloc = alloc ∧
      List.Forall₂ bindingStaticEq bs (inputLoop i arrays bs alloc).bs := by
  induction bs generalizing arrays i alloc with
  | nil => exact ⟨rfl, List.Forall₂.nil⟩
  | cons b rest ih =>
    have hbAll : (b.device_buf).isSome = true := hall b (List.mem_cons_self b rest)
    have hrestAll : allDeviceAllocated rest :=
      fun x hx => hall x (List.mem_cons_of_mem b hx)
    rcases hbuf : b.device_buf with _ | buf
    · rw [hbuf] at hbAll
      cases hbAll
    · by_cases hin : b.is_input
      · match arrays with
        | [] =>
          simp only [inputLoop, hin, if_true]
          have h2 := @ih [] i alloc hrestAll
          exact ⟨h2.1, List.Forall₂.cons (bindingStaticEq_refl b) h2.2⟩
        | a :: as =>
          rcases hc : check_input_validity i a b with e0 | a1
          · simp only [inputLoop, hin, if_true, hc]
            exact ⟨by trivial, forall₂_bindingStaticEq_refl _⟩
          · simp only [inputLoop, hin, if_true, hc]
            have hdb : b.device_buffer alloc = (buf, b, alloc) := by
              simp [Binding.device_buffer, hbuf]
            rw [hdb]
            have h2 := @ih as (i + 1) alloc hrestAll
            refine ⟨h2.1, List.Forall₂.cons ?_ h2.2⟩
            exact ⟨rfl, rfl, rfl, rfl, rfl, by rw [hbuf]; exact ⟨rfl, rfl⟩⟩
      · simp only [inputLoop, hin, if_false]
        have h2 := @ih arrays i alloc hrestAll
        exact ⟨h2.1, List.Forall₂.cons (bindingStaticEq_refl b) h2.2⟩

/-- Replacing a model entry by a statically equal state preserves the static
equality of the whole model table. -/
theorem setModel_staticEq {models : List (String × ModelState)} {name : String}
    {ms new : ModelState} (hl : assocLookup models name = some ms)
    (hst : modelStaticEq ms new) :
    List.Forall₂ (fun p q => p.1 = q.1 ∧ modelStaticEq p.2 q.2) models
      (setModel models name new) := by
  induction models with
  | nil => cases hl
  | cons kv rest ih =>
    rcases kv with ⟨k, v⟩
    by_cases hk : k = name
    · subst hk
      have hl2 : some v = some ms := by simpa [assocLookup] using hl
      cases hl2
      simp only [setModel, if_pos rfl]
      exact List.Forall₂.cons ⟨rfl, hst⟩
        (List.forall₂_same.mpr (fun p _ => ⟨rfl, modelStaticEq_refl p.2⟩))
    · have hl2 : assocLookup rest name = some ms := by
        simpa [assocLookup, hk] using hl
      simp only [setModel, if_neg hk]
      exact List.Forall₂.cons ⟨rfl, modelStaticEq_refl v⟩ (ih hl2)

/-- Claim C6: when the submitted execution (or its synchronization) raises, the
failure is caught: the call returns the explicit no-result sentinel instead of
propagating an exception, prints exactly one log line carrying the failing
model name, leaves the manager statically unchanged (same models, same cached
addresses, same buffers at the same sizes and addresses, same allocation
counter — only scratch device contents and the rebuilt context table differ),
and the manager remains usable: any later call on the returned manager that
passes validation and whose execution completes returns a list of outputs. -/
theorem c6_exec_failure (exec : ExecOracle) (mgr : Manager) (name : String)
    (ms : ModelState) (arrays : List NDArray)
    (hl : assocLookup mgr.models name = some ms)
    (hlen : arrays.length = (inputBindings ms.bindings).length)
    (hall : allDeviceAllocated ms.bindings)
    (herr : (inputLoop 0 arrays ms.bindings mgr.nextAddr).err = none)
    (hex : exec name
      (devContents (inputLoop 0 arrays ms.bindings mgr.nextAddr).bs) = none) :
    (run_sequential_tasks exec mgr name (.list arrays)).ret = .ok .sentinel ∧
    (run_sequential_tasks exec mgr name (.list arrays)).logs = [logMsg name] ∧
    managerStaticEq mgr (run_sequential_tasks exec mgr name (.list arrays)).mgr ∧
    (∀ (exec2 : ExecOracle) (name2 : String) (ms2 : ModelState)
        (arrays2 : List NDArray) (cs2 : List (List Int)),
      assocLookup (run_sequential_tasks exec mgr name (.list arrays)).mgr.models
          name2 = some ms2 →
      arrays2.length = (inputBindings ms2.bindings).length →
      (inputLoop 0 arrays2 ms2.bindings
          (run_sequential_tasks exec mgr name (.list arrays)).mgr.nextAddr).err =
        none →
      exec2 name2 (devContents (inputLoop 0 arrays2 ms2.bindings
          (run_sequential_tasks exec mgr name (.list arrays)).mgr.nextAddr).bs) =
        some cs2 →
      ∃ l, (run_sequential_tasks exec2
          (run_sequential_tasks exec mgr name (.list arrays)).mgr name2
          (.list arrays2)).ret = .ok (.outs l)) := by
  have ht : toInputList (.list arrays) (inputBindings ms.bindings) = .ok arrays := rfl
  rw [run_eq_of_validated hl ht hlen, runValidated_eq_of_ok herr,
    runExecPhase_eq_of_fail hex]
  have hstatic := @inputLoop_static_of_allocated ms.bindings arrays 0
    mgr.nextAddr hall
  refine ⟨rfl, rfl, ⟨hstatic.1.symm, ?_⟩, ?_⟩
  · exact setModel_staticEq hl ⟨rfl, rfl, hstatic.2⟩
  · intro exec2 name2 ms2 arrays2 cs2 hl2 hlen2 herr2 hex2
    have ht2 : toInputList (.list arrays2) (inputBindings ms2.bindings) =
      .ok arrays2 := rfl
    rw [run_eq_of_validated hl2 ht2 hlen2, runValidated_eq_of_ok herr2,
      runExecPhase_eq_of_exec hex2]
    exact ⟨_, rfl⟩

/-- Witness for `c6_exec_failure`: the always-raising execution on the concrete
one-model manager returns the sentinel and logs the model name. -/
theorem c6_exec_failure_witness :
    (run_sequential_tasks execFail mgr1 "m" (.list [arrI32])).ret = .ok .sentinel ∧
    (run_sequential_tasks execFail mgr1 "m" (.list [arrI32])).logs = [logMsg "m"] := by
  have h := c6_exec_failure execFail mgr1 "m" (initializeModel eng1 0).1 [arrI32]
    (by decide) (by decide) (by decide) (by decide) rfl
  exact ⟨h.1, h.2.1⟩

theorem obufStaticEq_trans {x y z : Option Buffer} (h1 : obufStaticEq x y)
    (h2 : obufStaticEq y z) : obufStaticEq x z := by
  cases x <;> cases y <;> cases z <;> simp [obufStaticEq] at h1 h2 ⊢
  exact ⟨h1.1.trans h2.1, h1.2.trans h2.2⟩

theorem bindingStaticEq_trans {a b c : Binding} (h1 : bindingStaticEq a b)
    (h2 : bindingStaticEq b c) : bindingStaticEq a c :=
  ⟨h1.1.trans h2.1, h1.2.1.trans h2.2.1, h1.2.2.1.trans h2.2.2.1,
   h1.2.2.2.1.trans h2.2.2.2.1, h1.2.2.2.2.1.trans h2.2.2.2.2.1,
   obufStaticEq_trans h1.2.2.2.2.2 h2.2.2.2.2.2⟩

theorem forall₂_staticEq_trans {a b c : List Binding}
    (h1 : List.Forall₂ bindingStaticEq a b) (h2 : List.Forall₂ bindingStaticEq b c) :
    List.Forall₂ bindingStaticEq a c := by
  induction h1 generalizing c with
  | nil =>
    cases h2
    exact List.Forall₂.nil
  | cons hx hrest ih =>
    cases h2 with
    | cons hy hrest2 => exact List.Forall₂.cons (bindingStaticEq_trans hx hy) (ih hrest2)

/-- Writing execution results back changes only device-buffer contents. -/
theorem writeBack_staticEq (bs : List Binding) (cs : List (List Int)) :
    List.Forall₂ bindingStaticEq bs (writeBack bs cs) := by
  induction bs generalizing cs with
  | nil => exact List.Forall₂.nil
  | cons b rest ih =>
    match cs with
    | [] => exact forall₂_bindingStaticEq_refl _
    | c :: cs1 =>
      refine List.Forall₂.cons ?_ (ih cs1)
      refine ⟨rfl, rfl, rfl, rfl, rfl, ?_⟩
      cases hb : b.device_buf <;> simp [obufStaticEq, hb]

/-- Statically equal bindings own buffers at the same addresses. -/
theorem staticEq_bufAddrs {b c : Binding} (h : bindingStaticEq b c) :
    bufAddrs c = bufAddrs b := by
  rcases h with ⟨-, -, -, -, hh, hd⟩
  unfold bufAddrs
  rw [← hh]
  rcases hx : b.device_buf with _ | u <;> rcases hy : c.device_buf with _ | v <;>
    rw [hx, hy] at hd <;> simp [obufStaticEq] at hd <;> simp [hd]

theorem forall₂_staticEq_below {bs cs : List Binding} {a : Nat}
    (h : List.Forall₂ bindingStaticEq bs cs) (hb : bufAddrsBelow bs a) :
    bufAddrsBelow cs a := by
  induction h with
  | nil => exact fun b hmem => absurd hmem (List.not_mem_nil b)
  | cons hx hrest ih =>
    intro b hmem x hx2
    rcases List.mem_cons.mp hmem with rfl | hmem2
    · refine hb _ (List.mem_cons_self _ _) x ?_
      rw [← staticEq_bufAddrs hx]
      exact hx2
    · exact ih (fun b2 hb2 => hb b2 (List.mem_cons_of_mem _ hb2)) b hmem2 x hx2

theorem staticEq_isSome {b c : Binding} (h : bindingStaticEq b c)
    (hb : (b.device_buf).isSome = true) : (c.device_buf).isSome = true := by
  rcases h with ⟨-, -, -, -, -, hd⟩
  rcases hx : b.device_buf with _ | u <;> rcases hy : c.device_buf with _ | v <;>
    rw [hx, hy] at hd <;> rw [hx] at hb <;> simp_all [obufStaticEq]

theorem forall₂_staticEq_allocated {bs cs : List Binding}
    (h : List.Forall₂ bindingStaticEq bs cs) (ha : allDeviceAllocated bs) :
    allDeviceAllocated cs := by
  induction h with
  | nil => exact fun b hmem => absurd hmem (List.not_mem_nil b)
  | cons hx hrest ih =>
    intro b hmem
    rcases List.mem_cons.mp hmem with rfl | hmem2
    · exact staticEq_isSome hx (ha _ (List.mem_cons_self _ _))
    · exact ih (fun b2 hb2 => ha b2 (List.mem_cons_of_mem _ hb2)) b hmem2

theorem outputBindings_cons_input {b : Binding} (h : b.is_input = true)
    (l : List Binding) : outputBindings (b :: l) = outputBindings l := by
  simp [outputBindings, List.filter_cons, h]

theorem outputBindings_cons_output {b : Binding} (h : b.is_input = false)
    (l : List Binding) : outputBindings (b :: l) = b :: outputBindings l := by
  simp [outputBindings, List.filter_cons, h]

/-- Statically equal stores have statically equal output-binding views. -/
theorem outputBindings_staticEq {bs cs : List Binding}
    (h : List.Forall₂ bindingStaticEq bs cs) :
    List.Forall₂ bindingStaticEq (outputBindings bs) (outputBindings cs) := by
  induction h with
  | nil => exact List.Forall₂.nil
  | cons hx hrest ih =>
    rename_i b c l1 l2
    have hio : b.is_input = c.is_input := hx.2.1
    by_cases hin : b.is_input = true
    · rw [outputBindings_cons_input hin, outputBindings_cons_input (hio ▸ hin)]
      exact ih
    · have hbf : b.is_input = false := by simpa using hin
      rw [outputBindings_cons_output hbf, outputBindings_cons_output (hio ▸ hbf)]
      exact List.Forall₂.cons hx ih

/-- Composition of two elementwise relations that share their right list. -/
theorem forall₂_share_right {α β γ : Type} {R : α → β → Prop} {E : γ → β → Prop}
    {T : α → γ → Prop} (hc : ∀ a c b, R a b → E c b → T a c) :
    ∀ {l1 : List α} {l2 : List β} {l3 : List γ},
      List.Forall₂ R l1 l2 → List.Forall₂ E l3 l2 → List.Forall₂ T l1 l3 := by
  intro l1 l2 l3 h1 h2
  induction h1 generalizing l3 with
  | nil =>
    cases h2
    exact List.Forall₂.nil
  | cons hx hrest ih =>
    cases h2 with
    | cons hy hrest2 => exact List.Forall₂.cons (hc _ _ _ hx hy) (ih hrest2)

/-- A lookup in the updated model table returns either the new state or an
entry of the original table. -/
theorem setModel_lookup {models : List (String × ModelState)} {name nm : String}
    {v m2 : ModelState}
    (h : assocLookup (setModel models name v) nm = some m2) :
    m2 = v ∨ assocLookup models nm = some m2 := by
  induction models with
  | nil =>
    simp only [setModel, assocLookup] at h
    split at h
    · cases h
      exact Or.inl rfl
    · cases h
  | cons kv rest ih =>
    rcases kv with ⟨k, v0⟩
    by_cases hk : k = name
    · simp only [setModel, if_pos hk, assocLookup] at h ⊢
      split at h
      · cases h
        exact Or.inl rfl
      · rename_i hne
        rw [if_neg hne]
        exact Or.inr h
    · simp only [setModel, if_neg hk, assocLookup] at h ⊢
      split at h
      · cases h
        rename_i heq
        rw [if_pos heq]
        exact Or.inr rfl
      · rename_i hne
        rw [if_neg hne]
        exact ih h

theorem dtohLoop_cons_input {b : Binding} (h : b.is_input = true)
    (rest : List Binding) (alloc : Nat) :
    dtohLoop (b :: rest) alloc =
      ⟨b :: (dtohLoop rest alloc).bs, (dtohLoop rest alloc).alloc,
       (dtohLoop rest alloc).outs, (dtohLoop rest alloc).ops⟩ := by
  simp [dtohLoop, h]

theorem dtohLoop_cons_output {b : Binding} {buf : Buffer}
    (h : b.is_input = false) (hbuf : b.device_buf = some buf)
    (rest : List Binding) (alloc : Nat) :
    dtohLoop (b :: rest) alloc =
      ⟨b :: (dtohLoop rest (alloc + 1)).bs, (dtohLoop rest (alloc + 1)).alloc,
       NDArray.mk b.dtype b.shape buf.contents alloc true ::
         (dtohLoop rest (alloc + 1)).outs,
       DevOp.dtoh buf.addr alloc :: (dtohLoop rest (alloc + 1)).ops⟩ := by
  simp [dtohLoop, h, Binding.device_buffer, hbuf]

/-- On a store whose device buffers are all allocated, the output loop leaves
the store and the counter-drawn buffers untouched, allocates one fresh host
array per output binding in declared order, fills it by a device-to-host copy
of that binding's device buffer, and draws every result address from the
counter at or above its starting value. -/
theorem dtohLoop_spec {bs : List Binding} {alloc : Nat}
    (hall : allDeviceAllocated bs) :
    (dtohLoop bs alloc).bs = bs ∧ alloc ≤ (dtohLoop bs alloc).alloc ∧
      List.Forall₂ (fun o b => o.dtype = b.dtype ∧ o.shape = b.shape ∧
          o.contiguous = true ∧ ∃ buf, b.device_buf = some buf ∧
            o.data = buf.contents ∧
            DevOp.dtoh buf.addr o.addr ∈ (dtohLoop bs alloc).ops)
        (dtohLoop bs alloc).outs (outputBindings bs) ∧
      (∀ o ∈ (dtohLoop bs alloc).outs,
        alloc ≤ o.addr ∧ o.addr < (dtohLoop bs alloc).alloc) := by
  induction bs generalizing alloc with
  | nil =>
    refine ⟨rfl, Nat.le_refl _, ?_, ?_⟩
    · simp only [outputBindings, List.filter_nil]
      exact List.Forall₂.nil
    · intro o ho
      cases ho
  | cons b rest ih =>
    have hrestAll : allDeviceAllocated rest :=
      fun x hx => hall x (List.mem_cons_of_mem b hx)
    by_cases hin : b.is_input = true
    · rw [dtohLoop_cons_input hin, outputBindings_cons_input hin]
      have h2 := @ih alloc hrestAll
      exact ⟨congrArg (List.cons b) h2.1, h2.2.1, h2.2.2.1, h2.2.2.2⟩
    · have hbf : b.is_input = false := by simpa using hin
      rcases hbuf : b.device_buf with _ | buf
      · have := hall b (List.mem_cons_self b rest)
        rw [hbuf] at this
        cases this
      · rw [dtohLoop_cons_output hbf hbuf, outputBindings_cons_output hbf]
        have h2 := @ih (alloc + 1) hrestAll
        refine ⟨congrArg (List.cons b) h2.1,
          Nat.le_trans (Nat.le_succ alloc) h2.2.1, ?_, ?_⟩
        · refine List.Forall₂.cons ⟨rfl, rfl, rfl, buf, hbuf, rfl,
            List.mem_cons_self _ _⟩ ?_
          exact h2.2.2.1.imp (fun {o} {b2} hrel =>
            ⟨hrel.1, hrel.2.1, hrel.2.2.1,
             hrel.2.2.2.choose, hrel.2.2.2.choose_spec.1,
             hrel.2.2.2.choose_spec.2.1,
             List.mem_cons_of_mem _ hrel.2.2.2.choose_spec.2.2⟩)
        · intro o ho
          rcases List.mem_cons.mp ho with rfl | ho2
          · exact ⟨Nat.le_refl _, Nat.lt_of_lt_of_le (Nat.lt_succ_self _) h2.2.1⟩
          · have := h2.2.2.2 o ho2
            exact ⟨Nat.le_trans (Nat.le_succ _) this.1, this.2⟩

/-- A successful association-list lookup returns an entry of the list. -/
theorem assocLookup_mem {α : Type} {l : List (String × α)} {k : String} {v : α}
    (h : assocLookup l k = some v) : (k, v) ∈ l := by
  induction l with
  | nil => cases h
  | cons kv rest ih =>
    rcases kv with ⟨k0, v0⟩
    by_cases hk : k0 = k
    · subst hk
      have h2 : some v0 = some v := by simpa [assocLookup] using h
      cases h2
      exact List.mem_cons_self _ _
    · have h2 : assocLookup rest k = some v := by simpa [assocLookup, hk] using h
      exact List.mem_cons_of_mem _ (ih h2)

/-- The manager-wide allocation bound follows from the bound on each stored
entry. -/
theorem addrsBounded_of_entries {mgr : Manager}
    (h : ∀ p ∈ mgr.models, bufAddrsBelow p.2.bindings mgr.nextAddr) :
    addrsBounded mgr :=
  fun name m hm => h (name, m) (assocLookup_mem hm)

/-- Claim C7: a successful `run` call returns exactly one freshly allocated
array per declared output tensor, in declared output order, with the declared
dtype and shape; each is filled by a device-to-host copy recorded in the trace
and carries the post-execution contents of its output device buffer; and no
result array shares an address with any host or device buffer owned by any
model of the returned manager. -/
theorem c7_output_contract (exec : ExecOracle) (mgr : Manager) (name : String)
    (ms : ModelState) (arrays : List NDArray) (cs : List (List Int))
    (hl : assocLookup mgr.models name = some ms)
    (hlen : arrays.length = (inputBindings ms.bindings).length)
    (hall : allDeviceAllocated ms.bindings)
    (hbnd : addrsBounded mgr)
    (herr : (inputLoop 0 arrays ms.bindings mgr.nextAddr).err = none)
    (hex : exec name
      (devContents (inputLoop 0 arrays ms.bindings mgr.nextAddr).bs) = some cs) :
    ∃ outs,
      (run_sequential_tasks exec mgr name (.list arrays)).ret = .ok (.outs outs) ∧
      outs.length = (outputBindings ms.bindings).length ∧
      List.Forall₂ (fun o b => o.dtype = b.dtype ∧ o.shape = b.shape ∧
          o.contiguous = true) outs (outputBindings ms.bindings) ∧
      List.Forall₂ (fun o b => ∃ buf, b.device_buf = some buf ∧
          o.data = buf.contents ∧ DevOp.dtoh buf.addr o.addr ∈
            (run_sequential_tasks exec mgr name (.list arrays)).devOps)
        outs (outputBindings
          (writeBack (inputLoop 0 arrays ms.bindings mgr.nextAddr).bs cs)) ∧
      (∀ o ∈ outs, ∀ nm m2,
        assocLookup (run_sequential_tasks exec mgr name (.list arrays)).mgr.models
            nm = some m2 →
        ∀ b ∈ m2.bindings, ∀ x ∈ bufAddrs b, x ≠ o.addr) := by
  have ht : toInputList (.list arrays) (inputBindings ms.bindings) = .ok arrays := rfl
  rw [run_eq_of_validated hl ht hlen, runValidated_eq_of_ok herr,
    runExecPhase_eq_of_exec hex]
  have hst1 := @inputLoop_static_of_allocated ms.bindings arrays 0
    mgr.nextAddr hall
  have hall1 : allDeviceAllocated (inputLoop 0 arrays ms.bindings mgr.nextAddr).bs :=
    forall₂_staticEq_allocated hst1.2 hall
  have hst2 := writeBack_staticEq (inputLoop 0 arrays ms.bindings mgr.nextAddr).bs cs
  have hall2 : allDeviceAllocated
      (writeBack (inputLoop 0 arrays ms.bindings mgr.nextAddr).bs cs) :=
    forall₂_staticEq_allocated hst2 hall1
  have hst02 := forall₂_staticEq_trans hst1.2 hst2
  have dspec := @dtohLoop_spec
    (writeBack (inputLoop 0 arrays ms.bindings mgr.nextAddr).bs cs)
    (inputLoop 0 arrays ms.bindings mgr.nextAddr).alloc hall2
  have hout := outputBindings_staticEq hst02
  refine ⟨(dtohLoop
      (writeBack (inputLoop 0 arrays ms.bindings mgr.nextAddr).bs cs)
      (inputLoop 0 arrays ms.bindings mgr.nextAddr).alloc).outs, rfl, ?_, ?_, ?_, ?_⟩
  · rw [dspec.2.2.1.length_eq, hout.length_eq]
  · refine forall₂_share_right (R := fun o b => o.dtype = b.dtype ∧ o.shape = b.shape ∧
        o.contiguous = true ∧ ∃ buf, b.device_buf = some buf ∧
        o.data = buf.contents ∧ DevOp.dtoh buf.addr o.addr ∈ _)
      (E := bindingStaticEq) ?_ dspec.2.2.1 hout
    intro o bdecl b2 hr he
    exact ⟨hr.1.trans he.2.2.1.symm, hr.2.1.trans he.2.2.2.1.symm, hr.2.2.1⟩
  · refine dspec.2.2.1.imp (fun {o} {b2} hrel => ?_)
    refine ⟨hrel.2.2.2.choose, hrel.2.2.2.choose_spec.1,
      hrel.2.2.2.choose_spec.2.1, ?_⟩
    exact List.mem_append_right _ (List.mem_cons_of_mem _
      hrel.2.2.2.choose_spec.2.2)
  · intro o ho nm m2 hlk b hb x hx
    have hoaddr : (inputLoop 0 arrays ms.bindings mgr.nextAddr).alloc ≤ o.addr :=
      (dspec.2.2.2 o ho).1
    rw [hst1.1] at hoaddr
    have hbelow : bufAddrsBelow m2.bindings mgr.nextAddr := by
      rcases setModel_lookup hlk with rfl | hold
      · have hbs : (dtohLoop
            (writeBack (inputLoop 0 arrays ms.bindings mgr.nextAddr).bs cs)
            (inputLoop 0 arrays ms.bindings mgr.nextAddr).alloc).bs =
            writeBack (inputLoop 0 arrays ms.bindings mgr.nextAddr).bs cs := dspec.1
        simp only [hbs]
        exact forall₂_staticEq_below hst02 (hbnd name ms hl)
      · exact hbnd nm m2 hold
    exact Nat.ne_of_lt (Nat.lt_of_lt_of_le (hbelow b hb x hx) hoaddr)

/-- Witness for `c7_output_contract`: the single-output concrete model returns
one float32 array of shape (1,). -/
theorem c7_output_contract_witness :
    ∃ outs, (run_sequential_tasks execId mgr1 "m" (.list [arrI32])).ret =
      .ok (.outs outs) ∧ outs.length = 1 := by
  have h := c7_output_contract execId mgr1 "m" (initializeModel eng1 0).1 [arrI32]
    (devContents (inputLoop 0 [arrI32] (initializeModel eng1 0).1.bindings
      mgr1.nextAddr).bs)
    (by decide) (by decide) (by decide)
    (addrsBounded_of_entries (by decide))
    (by decide) rfl
  rcases h with ⟨outs, hret, hlen2, -⟩
  exact ⟨outs, hret, by rw [hlen2]; decide⟩

/-- Claim C8, counterexample: an engine whose shape-inference input tensor
`in0` sits at I/O index 1, after an output tensor.  A valid `run` call
succeeds, but because the code binds the supplied array's address only when
the global tensor index is below `len(inputs)`, the shape-inference input is
bound to its cached device-buffer address 1 and not to the supplied array's
raw address 500 — contradicting "each shape-inference input tensor is bound to
the supplied input array's raw data address". -/
theorem c8_counterexample :
    engSI.tensors.get? 1 = some ⟨"in0", true, .int32, [1], true⟩ ∧
    (∃ l, (run_sequential_tasks execId mgrSI "m" (.list [arrI32])).ret =
      .ok (.outs l)) ∧
    arrI32.addr = 500 ∧
    (assocLookup (run_sequential_tasks execId mgrSI "m"
        (.list [arrI32])).mgr.models "m").map
      (fun ms => assocLookup ms.ctxAddresses "in0") = some (some 1) ∧
    (1 : Nat) ≠ 500 := by
  refine ⟨by decide, ⟨[⟨.float32, [1], [0], 2, true⟩], by decide⟩, by decide,
    by decide, by decide⟩

theorem assocSet_lookup_self (m : List (String × Nat)) (k : String) (v : Nat) :
    assocLookup (assocSet m k v) k = some v := by
  induction m with
  | nil => simp [assocSet, assocLookup]
  | cons kv rest ih =>
    rcases kv with ⟨k0, v0⟩
    by_cases hk : k0 = k
    · simp [assocSet, hk, assocLookup]
    · simp [assocSet, hk, assocLookup, ih]

theorem assocSet_lookup_other {k k2 : String} (hne : k2 ≠ k)
    (m : List (String × Nat)) (v : Nat) :
    assocLookup (assocSet m k v) k2 = assocLookup m k2 := by
  induction m with
  | nil => simp [assocSet, assocLookup, Ne.symm hne]
  | cons kv rest ih =>
    rcases kv with ⟨k0, v0⟩
    by_cases hk : k0 = k
    · subst hk
      simp [assocSet, assocLookup, Ne.symm hne]
    · simp [assocSet, hk, assocLookup, ih]

/-- The address-table loop leaves keys that are not among the remaining tensor
names untouched. -/
theorem buildCtx_lookup_notin {tensors : List TensorDecl} {nm : String}
    (hni : nm ∉ tensors.map TensorDecl.name) (ctx : List (String × Nat))
    (i : Nat) (arrays : List NDArray) (addrs : List Nat) :
    assocLookup (buildCtx ctx tensors i arrays addrs) nm = assocLookup ctx nm := by
  induction tensors generalizing ctx i with
  | nil => rfl
  | cons t rest ih =>
    have hne : nm ≠ t.name := fun h => hni (by simp [h])
    have hni2 : nm ∉ rest.map TensorDecl.name := fun h => hni (by simp [h])
    simp only [buildCtx]
    rw [ih hni2, assocSet_lookup_other hne]

/-- The value the rebuilt address table holds for the tensor at index `k` of
the remaining tensor list (engine tensor names assumed distinct, as TensorRT
guarantees): the supplied array's address when the global index is below the
number of arrays and the tensor is a shape-inference tensor, the cached device
address otherwise. -/
theorem buildCtx_lookup {tensors : List TensorDecl}
    (hnodup : (tensors.map TensorDecl.name).Nodup) (ctx : List (String × Nat))
    (i0 : Nat) (arrays : List NDArray) (addrs : List Nat) :
    ∀ k t, tensors.get? k = some t →
      assocLookup (buildCtx ctx tensors i0 arrays addrs) t.name =
        some (if i0 + k < arrays.length ∧ t.isShapeInference = true then
            ((arrays.get? (i0 + k)).map NDArray.addr).getD 0
          else (addrs.get? (i0 + k)).getD 0) := by
  induction tensors generalizing ctx i0 with
  | nil =>
    intro k t hk
    cases hk
  | cons t0 rest ih =>
    have hni : t0.name ∉ rest.map TensorDecl.name := by
      simpa using (List.nodup_cons.mp hnodup).1
    have hnodup2 : (rest.map TensorDecl.name).Nodup := (List.nodup_cons.mp hnodup).2
    intro k t hk
    match k with
    | 0 =>
      have ht : t0 = t := by
        simpa using hk
      subst ht
      simp only [buildCtx]
      rw [buildCtx_lookup_notin hni, assocSet_lookup_self]
      simp
    | Nat.succ k1 =>
      have hk2 : rest.get? k1 = some t := by simpa using hk
      simp only [buildCtx]
      have hrec := ih hnodup2 (assocSet ctx t0.name
        (if i0 < arrays.length ∧ t0.isShapeInference = true then
          ((arrays.get? i0).map NDArray.addr).getD 0
        else (addrs.get? i0).getD 0)) (i0 + 1) k1 t hk2
      rw [hrec]
      have harith : i0 + 1 + k1 = i0 + Nat.succ k1 := by omega
      rw [harith]

theorem setModel_lookup_self {models : List (String × ModelState)} {name : String}
    {ms : ModelState} (h : assocLookup models name = some ms) (v : ModelState) :
    assocLookup (setModel models name v) name = some v := by
  induction models with
  | nil => cases h
  | cons kv rest ih =>
    rcases kv with ⟨k, v0⟩
    by_cases hk : k = name
    · subst hk
      simp [setModel, assocLookup]
    · have h2 : assocLookup rest name = some ms := by
        simpa [assocLookup, hk] using h
      simp [setModel, hk, assocLookup, ih h2]

/-- Claim C8, amended: before the execution is submitted the per-tensor
address table is rebuilt to cover every I/O tensor of the engine, but the
binding rule is positional: the tensor at global I/O index `k` is bound to the
`k`-th supplied array's raw data address exactly when `k` is below the number
of supplied inputs and the tensor is a shape-inference tensor; every other
tensor — including a shape-inference input whose global index is not below the
input count — is bound to the cached device-buffer address at index `k`.
(When the engine lists all inputs before all outputs this coincides with the
claim's per-tensor rule.) -/
theorem c8_amended (exec : ExecOracle) (mgr : Manager) (name : String)
    (ms : ModelState) (arrays : List NDArray)
    (hl : assocLookup mgr.models name = some ms)
    (hlen : arrays.length = (inputBindings ms.bindings).length)
    (herr : (inputLoop 0 arrays ms.bindings mgr.nextAddr).err = none)
    (hnodup : (ms.engine.tensors.map TensorDecl.name).Nodup) :
    ∃ ms2, assocLookup
        (run_sequential_tasks exec mgr name (.list arrays)).mgr.models name =
          some ms2 ∧
      ∀ k t, ms.engine.tensors.get? k = some t →
        assocLookup ms2.ctxAddresses t.name =
          some (if k < arrays.length ∧ t.isShapeInference = true then
              ((arrays.get? k).map NDArray.addr).getD 0
            else (ms.binding_addresses.get? k).getD 0) := by
  have ht : toInputList (.list arrays) (inputBindings ms.bindings) = .ok arrays := rfl
  rw [run_eq_of_validated hl ht hlen, runValidated_eq_of_ok herr]
  rcases hex : exec name
      (devContents (inputLoop 0 arrays ms.bindings mgr.nextAddr).bs) with _ | cs
  · rw [runExecPhase_eq_of_fail hex]
    refine ⟨_, setModel_lookup_self hl _, ?_⟩
    intro k t hk
    have hb := buildCtx_lookup hnodup ms.ctxAddresses 0 arrays
      ms.binding_addresses k t hk
    simpa using hb
  · rw [runExecPhase_eq_of_exec hex]
    refine ⟨_, setModel_lookup_self hl _, ?_⟩
    intro k t hk
    have hb := buildCtx_lookup hnodup ms.ctxAddresses 0 arrays
      ms.binding_addresses k t hk
    simpa using hb

/-- Witness for `c8_amended` at the `engSI` fixture: the shape-inference input
at I/O index 1 of a one-input engine is bound to the cached device address 1
(not the supplied array's address 500). -/
theorem c8_amended_witness :
    ∃ ms2, assocLookup (run_sequential_tasks execId mgrSI "m"
        (.list [arrI32])).mgr.models "m" = some ms2 ∧
      assocLookup ms2.ctxAddresses "in0" = some 1 := by
  rcases c8_amended execId mgrSI "m" (initializeModel engSI 0).1 [arrI32]
      (by decide) (by decide) (by decide) (by decide) with ⟨ms2, hlk, hform⟩
  refine ⟨ms2, hlk, ?_⟩
  have hv := hform 1 ⟨"in0", true, .int32, [1], true⟩ (by decide)
  rw [hv]
  decide

/-- `Binding.__init__` leaves both buffers unallocated, so `forceAddresses`
(the `binding_addresses` comprehension) allocates every device buffer with
byte size shape-volume times element size, and leaves host buffers alone. -/
theorem forceAddresses_spec {bs : List Binding} {alloc : Nat}
    (h0 : ∀ b ∈ bs, b.device_buf = none ∧ b.host_buf = none) :
    ∀ c ∈ (forceAddresses bs alloc).1,
      c.host_buf = none ∧ ∃ buf, c.device_buf = some buf ∧
        buf.size = volume c.shape * c.dtype.itemsize := by
  induction bs generalizing alloc with
  | nil =>
    intro c hc
    cases hc
  | cons b rest ih =>
    have hb := h0 b (List.mem_cons_self b rest)
    have hdb : b.device_buffer alloc =
        (Buffer.mk alloc (volume b.shape * b.dtype.itemsize)
           (List.replicate (volume b.shape) 0),
         { b with device_buf := some (Buffer.mk alloc
             (volume b.shape * b.dtype.itemsize)
             (List.replicate (volume b.shape) 0)) }, alloc + 1) := by
      simp [Binding.device_buffer, hb.1]
    intro c hc
    simp only [forceAddresses, hdb] at hc
    rcases List.mem_cons.mp hc with rfl | hc2
    · exact ⟨hb.2, _, rfl, rfl⟩
    · exact ih (fun x hx => h0 x (List.mem_cons_of_mem b hx)) c hc2

/-- Touching already-allocated device buffers changes nothing
(`prepare_buffers` after the `binding_addresses` comprehension is a no-op). -/
theorem forceDevice_id {p : Binding → Bool} {bs : List Binding} {alloc : Nat}
    (h : ∀ b ∈ bs, (b.device_buf).isSome = true) :
    forceDevice p bs alloc = (bs, alloc) := by
  induction bs generalizing alloc with
  | nil => rfl
  | cons b rest ih =>
    have hb := h b (List.mem_cons_self b rest)
    rcases hbuf : b.device_buf with _ | buf
    · rw [hbuf] at hb
      cases hb
    · have hdb : b.device_buffer alloc = (buf, b, alloc) := by
        simp [Binding.device_buffer, hbuf]
      have hrest := @ih alloc (fun x hx => h x (List.mem_cons_of_mem b hx))
      by_cases hp : p b
      · simp [forceDevice, hp, hdb, hrest]
      · simp [forceDevice, hp, hrest]

theorem prepare_buffers_id {bs : List Binding} {alloc : Nat}
    (h : ∀ b ∈ bs, (b.device_buf).isSome = true) :
    prepare_buffers bs alloc = (bs, alloc) := by
  simp [prepare_buffers, forceDevice_id h]

/-- After `initializeModel`, every binding has exactly its device buffer
allocated, sized shape-volume times element size; host buffers stay
unallocated. -/
theorem initializeModel_bindings_spec (eng : Engine) (alloc : Nat) :
    ∀ b ∈ (initializeModel eng alloc).1.bindings,
      b.host_buf = none ∧ ∃ buf, b.device_buf = some buf ∧
        buf.size = volume b.shape * b.dtype.itemsize := by
  have h0 : ∀ b ∈ eng.tensors.map Binding.ofDecl,
      b.device_buf = none ∧ b.host_buf = none := by
    intro b hb
    rcases List.mem_map.mp hb with ⟨d, -, rfl⟩
    exact ⟨rfl, rfl⟩
  have hforce := @forceAddresses_spec (eng.tensors.map Binding.ofDecl) alloc h0
  have hall : ∀ b ∈ (forceAddresses (eng.tensors.map Binding.ofDecl) alloc).1,
      (b.device_buf).isSome = true := by
    intro b hb
    rcases (hforce b hb).2 with ⟨buf, hbuf, -⟩
    rw [hbuf]
    rfl
  intro b hb
  simp only [initializeModel, prepare_buffers_id hall] at hb
  exact hforce b hb

/-- `initialize_engines` stores only `initializeModel` results, so every
binding of every stored model satisfies the buffer-allocation contract. -/
theorem initialize_engines_bindings {disk : String → Option Engine}
    {paths : List (String × String)} {alloc : Nat}
    {models : List (String × ModelState)} {alloc2 : Nat}
    (h : (initialize_engines disk paths alloc).1 = .ok (models, alloc2)) :
    ∀ p ∈ models, ∀ b ∈ p.2.bindings,
      b.host_buf = none ∧ ∃ buf, b.device_buf = some buf ∧
        buf.size = volume b.shape * b.dtype.itemsize := by
  induction paths generalizing alloc models alloc2 with
  | nil =>
    simp only [initialize_engines, Except.ok.injEq, Prod.mk.injEq] at h
    rcases h with ⟨hm, -⟩
    subst hm
    intro p hp
    cases hp
  | cons np rest ih =>
    rcases np with ⟨n, path⟩
    simp only [initialize_engines] at h
    rcases hd : disk path with _ | eng
    · simp only [hd] at h
      cases h
    · simp only [hd] at h
      rcases hrec : (initialize_engines disk rest (initializeModel eng alloc).2).1
          with e | pr
      · simp only [hrec] at h
        cases h
      · rcases pr with ⟨mods2, a3⟩
        simp only [hrec, Except.ok.injEq, Prod.mk.injEq] at h
        rcases h with ⟨hm, -⟩
        subst hm
        intro p hp
        rcases List.mem_cons.mp hp with rfl | hp2
        · exact initializeModel_bindings_spec eng alloc
        · exact ih hrec p hp2

/-- Claim C3, counterexample: after a successful construction the host buffers
of the feature-extractor model's bindings are still unallocated —
`prepare_buffers` touches only `device_buffer`, so "both its host buffer and
its device buffer already allocated" fails. -/
theorem c3_counterexample :
    (constructManager disk0 true cfg0).1 = .ok mgrC ∧
    (assocLookup mgrC.models "feature_extractor").map
      (fun ms => ms.bindings.map (fun b => b.host_buf)) = some [none, none] := by
  exact ⟨by decide, by decide⟩

/-- Claim C3, amended: after a successful construction, every binding of every
stored model has its device buffer already allocated with byte size
shape-volume times element size, and a later `device_buffer` access returns
the cached buffer without touching the allocator (so no device-buffer
allocation happens during `run`); host buffers are not allocated at
construction — they are created lazily on first access, with the same byte
size. -/
theorem c3_amended (disk : String → Option Engine) (half : Bool)
    (cfg : PathConfig) (mgr : Manager)
    (h : (constructManager disk half cfg).1 = .ok mgr) :
    ∀ name ms, assocLookup mgr.models name = some ms →
      ∀ b ∈ ms.bindings,
        (∃ buf, b.device_buf = some buf ∧
          buf.size = volume b.shape * b.dtype.itemsize ∧
          (∀ alloc, b.device_buffer alloc = (buf, b, alloc))) ∧
        b.host_buf = none ∧
        (∀ alloc, (b.host_buffer alloc).1.size =
          volume b.shape * b.dtype.itemsize) := by
  simp only [constructManager] at h
  rcases hie : (initialize_engines disk (model_paths half cfg) 0).1 with e | pr
  · simp only [hie] at h
    cases h
  · rcases pr with ⟨mods, a2⟩
    simp only [hie, Except.ok.injEq] at h
    subst h
    intro name ms hlk b hb
    have hspec := initialize_engines_bindings hie (name, ms)
      (assocLookup_mem hlk) b hb
    rcases hspec with ⟨hhost, buf, hbuf, hsize⟩
    refine ⟨⟨buf, hbuf, hsize, fun alloc => by
      simp [Binding.device_buffer, hbuf]⟩, hhost, fun alloc => by
      simp [Binding.host_buffer, hhost]⟩

/-- Witness for `c3_amended` at the first binding of the constructed
feature-extractor model. -/
theorem c3_amended_witness :
    (Binding.mk "x" true .int32 [1] none (some (Buffer.mk 0 4 [0]))).host_buf =
      none ∧
    ∃ buf, (Binding.mk "x" true .int32 [1] none
        (some (Buffer.mk 0 4 [0]))).device_buf = some buf ∧
      buf.size = volume [1] * DType.int32.itemsize := by
  have h := c3_amended disk0 true cfg0 mgrC (by decide) "feature_extractor"
    ((assocLookup mgrC.models "feature_extractor").getD ⟨eng1, [], [], []⟩)
    (by decide) (Binding.mk "x" true .int32 [1] none (some (Buffer.mk 0 4 [0])))
    (by decide)
  exact ⟨h.2.1, h.1.choose, h.1.choose_spec.1, h.1.choose_spec.2.1⟩

theorem countPluginLoads_append (a b : List InitEvent) :
    countPluginLoads (a ++ b) = countPluginLoads a + countPluginLoads b := by
  simp [countPluginLoads, List.filter_append]

/-- Engine initialization emits deserialization events only. -/
theorem initialize_engines_no_plugin (disk : String → Option Engine)
    (paths : List (String × String)) (alloc : Nat) :
    countPluginLoads (initialize_engines disk paths alloc).2 = 0 := by
  induction paths generalizing alloc with
  | nil => rfl
  | cons np rest ih =>
    rcases np with ⟨n, path⟩
    simp only [initialize_engines]
    rcases hd : disk path with _ | eng
    · simp [hd, countPluginLoads, List.filter_cons]
    · simp only [hd]
      have := @ih ((initializeModel eng alloc).2)
      simp [countPluginLoads, List.filter_cons] at this ⊢
      exact this

theorem constructManager_trace (disk : String → Option Engine) (half : Bool)
    (cfg : PathConfig) :
    (constructManager disk half cfg).2 =
      InitEvent.pluginLoad ::
        (initialize_engines disk (model_paths half cfg) 0).2 := rfl

/-- Each constructor call loads and registers the plugin exactly once. -/
theorem countPluginLoads_construct (disk : String → Option Engine) (half : Bool)
    (cfg : PathConfig) :
    countPluginLoads (constructManager disk half cfg).2 = 1 := by
  rw [constructManager_trace]
  have h := initialize_engines_no_plugin disk (model_paths half cfg) 0
  simp [countPluginLoads, List.filter_cons] at h ⊢
  exact h

/-- Claim C9, counterexample: a process that constructs two managers loads and
registers the plugin twice — nothing guards the load with process-wide state,
so "exactly once per process" fails. -/
theorem c9_counterexample :
    countPluginLoads (processTrace disk0 [⟨true, cfg0⟩, ⟨true, cfg0⟩]) = 2 ∧
      (2 : Nat) ≠ 1 := by
  exact ⟨by decide, by decide⟩

/-- Claim C9, amended: plugin loading and registration executes exactly once
per manager construction (so `n` times in a process that constructs `n`
managers, not once per process), and strictly before any engine is
deserialized: every deserialization event in the process trace is preceded by
a plugin load. -/
theorem c9_amended (disk : String → Option Engine) (cs : List Construction) :
    countPluginLoads (processTrace disk cs) = cs.length ∧
    ∀ p pre post,
      processTrace disk cs = pre ++ InitEvent.deserializeEngine p :: post →
      InitEvent.pluginLoad ∈ pre := by
  constructor
  · induction cs with
    | nil => rfl
    | cons c rest ih =>
      have hsplit : processTrace disk (c :: rest) =
          (constructManager disk c.half c.cfg).2 ++ processTrace disk rest := by
        simp [processTrace]
      rw [hsplit, countPluginLoads_append, countPluginLoads_construct, ih,
        List.length_cons]
      omega
  · intro p pre post hdec
    match cs with
    | [] =>
      simp [processTrace] at hdec
    | c :: rest =>
      have hsplit : processTrace disk (c :: rest) =
          InitEvent.pluginLoad ::
            ((initialize_engines disk (model_paths c.half c.cfg) 0).2 ++
              processTrace disk rest) := by
        simp [processTrace, constructManager_trace]
      rw [hsplit] at hdec
      match pre with
      | [] => simp at hdec
      | x :: pre2 =>
        rw [List.cons_append] at hdec
        have hx : InitEvent.pluginLoad = x :=
          ((List.cons.injEq _ _ _ _).mp hdec).1
        rw [← hx]
        exact List.mem_cons_self _ _

/-- Witness for `c9_amended`: the one-construction process trace decomposes
with the first deserialization preceded by the plugin load, and counts one
plugin load. -/
theorem c9_amended_witness :
    InitEvent.pluginLoad ∈ [InitEvent.pluginLoad] ∧
    countPluginLoads (processTrace disk0 [⟨true, cfg0⟩]) = 1 := by
  refine ⟨(c9_amended disk0 [⟨true, cfg0⟩]).2 "e1" [InitEvent.pluginLoad]
    (List.replicate 5 (InitEvent.deserializeEngine "e1")) (by decide), ?_⟩
  exact (c9_amended disk0 [⟨true, cfg0⟩]).1

/-- Claim C1: per the spec, supplying an int64 array where int32 is declared
must fail with a type error whenever some value is not representable in 32
bits.  The code contradicts its own `"Cannot safely cast"` branch: because
`input_array` is rebound to the converted array before the `np.array_equal`
test, the test compares the converted array with its own widening and never
fails.  At the concrete failing input `[2 ** 31]` (int64, declared int32):
validation succeeds, the value used for inference is the wrapped
`-2 ** 31` — not numerically equal to the original — the full `run` call
succeeds, and the wrapped value is what reaches the device. -/
theorem c1_unsafe_cast_accepted :
    check_input_validity 0 arrBig bndIn =
      .ok ⟨.int32, [1], [-2147483648], 501, true⟩ ∧
    ((-2147483648 : Int) = 2147483648) = False ∧
    (run_sequential_tasks execId mgr1 "m" (.list [arrBig])).ret =
      .ok (.outs [⟨.float32, [1], [0], 2, true⟩]) ∧
    (run_sequential_tasks execId mgr1 "m" (.list [arrBig])).devOps =
      [.htod 0 [-2147483648], .execAttempt "m", .dtoh 1 2] := by
  refine ⟨by decide, by simp, by decide, by decide⟩

/-- Claim C2, counterexample: a `run` call on a two-input model whose second
input has a mismatched shape.  The validation error is raised at position 1,
but the host-to-device copy for position 0 has already been issued, and the
first input's device buffer (address 0, freshly holding `[0]` in `mgr2`) now
holds the copied data `[5]` — contradicting "the validation error is propagated
to the caller before any host-to-device copy is issued, and no device buffer of
that model is mutated by the failed call". -/
theorem c2_counterexample :
    (run_sequential_tasks execId mgr2 "m" (.list [arrI32, arrBadShape])).ret =
      .error (.wrongShape 1 [1] [2]) ∧
    (run_sequential_tasks execId mgr2 "m" (.list [arrI32, arrBadShape])).devOps =
      [.htod 0 [5]] ∧
    (assocLookup mgr2.models "m").map
        (fun ms => ms.bindings.map (fun b => Option.map Buffer.contents b.device_buf)) =
      some [some [0], some [0], some [0]] ∧
    (assocLookup (run_sequential_tasks execId mgr2 "m"
          (.list [arrI32, arrBadShape])).mgr.models "m").map
        (fun ms => ms.bindings.map (fun b => Option.map Buffer.contents b.device_buf)) =
      some [some [5], some [0], some [0]] := by
  refine ⟨by decide, by decide, by decide, by decide⟩

end TRTDriver
